import Mathlib

/-!
Verification of the monoup monorepo build/version/publish orchestrator.

Shallow embedding of the TypeScript sources:
  - src/core/version/index.ts   (semver parsing, comparison, bumping, propagation)
  - src/core/utils/package.ts   (dependency sort, cycle detection)
  - src/core/build (builder)    (buildAll scheduling graph and polling guard)
  - src/core/publish/index.ts   (publish command)

JavaScript machine numbers are modelled as Nat/Int (the values occurring in
version strings are small; JS float imprecision above 2^53 is out of scope).
JavaScript string comparison is modelled as lexicographic comparison of
character codes (identical to JS UTF-16 comparison on the ASCII strings that
semver identifiers are restricted to).
-/

namespace Monoup

/-! ## Characters and strings -/

/-- Lexicographic strictly-less on char lists by character code:
the model of the JavaScript `<` operator on (ASCII) strings. -/
def charListLt : List Char → List Char → Bool
  | [], [] => false
  | [], _ :: _ => true
  | _ :: _, [] => false
  | a :: as, b :: bs =>
    if a.toNat < b.toNat then true
    else if b.toNat < a.toNat then false
    else charListLt as bs

/-- JS `a < b` on strings. -/
def jsStrLt (a b : String) : Bool := charListLt a.toList b.toList

/-- Nat value of a (pure-digit) char list, most significant first:
the model of `parseInt` on digit strings. -/
def digitsToNat (cs : List Char) : Nat :=
  cs.foldl (fun acc c => 10 * acc + (c.toNat - 48)) 0

/-- JS `String.prototype.split('.')` on the character level:
splits at every dot, keeping empty segments. -/
def splitDotsCore : List Char → List Char → List (List Char)
  | [], acc => [acc.reverse]
  | c :: rest, acc =>
    if c = '.' then acc.reverse :: splitDotsCore rest []
    else splitDotsCore rest (c :: acc)

/-- JS `s.split('.')`. -/
def splitDots (s : String) : List String :=
  (splitDotsCore s.toList []).map String.mk

/-- JS `parts.join('.')` on the character level. -/
def joinDotsCore : List (List Char) → List Char
  | [] => []
  | [s] => s
  | s :: rest => s ++ '.' :: joinDotsCore rest

/-- JS `parts.join('.')`. -/
def joinDots (parts : List String) : String :=
  String.mk (joinDotsCore (parts.map String.toList))

/-- Is the first list a leading segment of the second
(JS `String.prototype.startsWith`, char level). -/
def leadMatches : List Char → List Char → Bool
  | [], _ => true
  | _ :: _, [] => false
  | a :: as, b :: bs => a = b && leadMatches as bs

/-- JS `s.startsWith(pre)`. -/
def strStartsWith (s pre : String) : Bool := leadMatches pre.toList s.toList

/-- Drop the first `n` characters of a string (the semver strings handled
here are ASCII, so character count and JS index agree). -/
def strDrop (s : String) (n : Nat) : String := String.mk (s.toList.drop n)

/-- ASCII `0`-`9` (JS `\d`). -/
def isDigitChar (c : Char) : Bool := 48 ≤ c.toNat && c.toNat ≤ 57

/-- ASCII `A`-`Z` or `a`-`z`. -/
def isAsciiLetter (c : Char) : Bool :=
  (65 ≤ c.toNat && c.toNat ≤ 90) || (97 ≤ c.toNat && c.toNat ≤ 122)

/-- The leading digit run of a char list. -/
def leadDigits (cs : List Char) : List Char := cs.takeWhile isDigitChar

/-- JS `parseInt(s, 10)` restricted to the strings it is applied to here
(semver identifiers: no whitespace): optional sign, then the maximal leading
digit run; `none` models `NaN`. -/
def jsParseInt (s : String) : Option Int :=
  let core : List Char → Option Nat := fun cs =>
    if (leadDigits cs).isEmpty then none else some (digitsToNat (leadDigits cs))
  match s.toList with
  | [] => none
  | c :: rest =>
    if c = '-' then (core rest).map (fun n => -(n : Int))
    else if c = '+' then (core rest).map (fun n => (n : Int))
    else (core (c :: rest)).map (fun n => (n : Int))

/-! ## Semver data model and parsing (`parseVersion`, version/index.ts) -/

/-- The `Version` object of version/index.ts. -/
structure Version where
  major : Nat
  minor : Nat
  patch : Nat
  prerelease : String
  build : String
deriving DecidableEq, Repr

/-- `[0-9A-Za-z-]`, the identifier character class of the semver regex. -/
def isIdentChar (c : Char) : Bool := isDigitChar c || isAsciiLetter c || c = '-'

/-- A dot-separated identifier sequence: each segment nonempty over
`[0-9A-Za-z-]` (the `X(\.X)*` part of the regex). -/
def validIdentSeq (cs : List Char) : Bool :=
  (splitDotsCore cs []).all (fun seg => !seg.isEmpty && seg.all isIdentChar)

/-- `parseVersion` of version/index.ts: the anchored regex
`^(\d+)\.(\d+)\.(\d+)(?:-(pre))?(?:\+(build))?$` as a deterministic parser
(equivalent because `\d` cannot match `.`/`-`/`+`, and identifier characters
cannot match `.`/`+`). -/
def parseVersion (s : String) : Option Version :=
  let cs := s.toList
  let d1 := cs.takeWhile isDigitChar
  let r1 := cs.dropWhile isDigitChar
  if d1.isEmpty then none else
  match r1 with
  | '.' :: r2 =>
    let d2 := r2.takeWhile isDigitChar
    let r3 := r2.dropWhile isDigitChar
    if d2.isEmpty then none else
    match r3 with
    | '.' :: r4 =>
      let d3 := r4.takeWhile isDigitChar
      let r5 := r4.dropWhile isDigitChar
      if d3.isEmpty then none else
      let mk : List Char → List Char → Option Version := fun pre bld =>
        some { major := digitsToNat d1, minor := digitsToNat d2,
               patch := digitsToNat d3,
               prerelease := String.mk pre, build := String.mk bld }
      match r5 with
      | [] => mk [] []
      | '-' :: r6 =>
        let pre := r6.takeWhile (fun c => c ≠ '+')
        let r7 := r6.dropWhile (fun c => c ≠ '+')
        if !validIdentSeq pre then none else
        match r7 with
        | [] => mk pre []
        | '+' :: r8 => if validIdentSeq r8 then mk pre r8 else none
        | _ => none
      | '+' :: r6 => if validIdentSeq r6 then mk [] r6 else none
      | _ => none
    | _ => none
  | _ => none

/-- `isValidSemVer` of version/index.ts. -/
def isValidSemVer (s : String) : Bool := (parseVersion s).isSome

/-! ## `compareVersions` (version/index.ts lines 81-119) -/

/-- The prerelease identifier loop of `compareVersions`: per position,
identifiers for which `parseInt` produces a number on both sides are compared
numerically (ties fall through), otherwise by JS string comparison (ties fall
through); a list that runs out first is smaller. -/
def comparePreLists : List String → List String → Int
  | [], [] => 0
  | [], _ :: _ => -1
  | _ :: _, [] => 1
  | a :: as, b :: bs =>
    match jsParseInt a, jsParseInt b with
    | some x, some y => if x ≠ y then x - y else comparePreLists as bs
    | _, _ =>
      if jsStrLt a b then -1
      else if jsStrLt b a then 1
      else comparePreLists as bs

/-- `compareVersions` of version/index.ts: returns `0` when either side fails
to parse; otherwise numeric field differences, the no-prerelease-is-greater
rule, then the element-wise prerelease comparison. -/
def compareVersions (version1 version2 : String) : Int :=
  match parseVersion version1, parseVersion version2 with
  | some v1, some v2 =>
    if v1.major ≠ v2.major then (v1.major : Int) - v2.major
    else if v1.minor ≠ v2.minor then (v1.minor : Int) - v2.minor
    else if v1.patch ≠ v2.patch then (v1.patch : Int) - v2.patch
    else if v1.prerelease = "" && v2.prerelease ≠ "" then 1
    else if v1.prerelease ≠ "" && v2.prerelease = "" then -1
    else if v1.prerelease = "" && v2.prerelease = "" then 0
    else comparePreLists (splitDots v1.prerelease) (splitDots v2.prerelease)
  | _, _ => 0

/-- The downgrade test used at every downgrade-warning site of
version/index.ts: `compareVersions(newV, oldV) < 0`. -/
def isDowngrade (newV oldV : String) : Bool := compareVersions newV oldV < 0

/-! ## Spec-side semver precedence (for the refinement claim C5) -/

/-- A purely numeric identifier (`/^\d+$/`; also the numeric-tail test of
`incrementPrerelease`). -/
def isNumericIdent (s : String) : Bool :=
  !s.toList.isEmpty && s.toList.all isDigitChar

/-- An identifier whose first character is an ASCII letter. -/
def isLetterInitial (s : String) : Bool :=
  match s.toList with
  | c :: _ => isAsciiLetter c
  | [] => false

/-- Spec-side element-wise prerelease precedence, following the spec text:
numeric identifiers compare numerically, a numeric identifier is lower than
an alphanumeric one, alphanumeric identifiers compare lexicographically in
ASCII order, and the list that runs out first is lower. -/
def specComparePre : List String → List String → Int
  | [], [] => 0
  | [], _ :: _ => -1
  | _ :: _, [] => 1
  | a :: as, b :: bs =>
    if isNumericIdent a && isNumericIdent b then
      let x := digitsToNat a.toList
      let y := digitsToNat b.toList
      if x ≠ y then (x : Int) - y else specComparePre as bs
    else if isNumericIdent a then -1
    else if isNumericIdent b then 1
    else if charListLt a.toList b.toList then -1
    else if charListLt b.toList a.toList then 1
    else specComparePre as bs

/-- Spec-side semver precedence on parsed versions: numeric
major/minor/patch first, a version without prerelease above one with a
prerelease at the same triple, then element-wise prerelease precedence.
Build metadata is ignored, as semver prescribes. -/
def specCompareVersions (v1 v2 : Version) : Int :=
  if v1.major ≠ v2.major then (v1.major : Int) - v2.major
  else if v1.minor ≠ v2.minor then (v1.minor : Int) - v2.minor
  else if v1.patch ≠ v2.patch then (v1.patch : Int) - v2.patch
  else if v1.prerelease = "" && v2.prerelease ≠ "" then 1
  else if v1.prerelease ≠ "" && v2.prerelease = "" then -1
  else if v1.prerelease = "" && v2.prerelease = "" then 0
  else specComparePre (splitDots v1.prerelease) (splitDots v2.prerelease)

/-- The identifier shapes on which the code's `parseInt`-based comparison
provably agrees with semver precedence: purely numeric, or letter-initial. -/
def goodIdent (s : String) : Bool := isNumericIdent s || isLetterInitial s

/-- All prerelease identifiers of a version are of a good shape. -/
def goodPre (pre : String) : Bool :=
  pre = "" || (splitDots pre).all goodIdent

/-! ## Version bumping (`incrementPrerelease`, `calculateTargetVersion`) -/

/-- `incrementPrerelease` of version/index.ts. JS `||`-truthiness of the
empty string gives the first branch; `prerelease.startsWith(tag)` is the
tag-match test; `/^\d+$/` is the numeric-tail test. -/
def incrementPrerelease (prerelease : String) (tag : String := "alpha") : String :=
  if prerelease = "" then tag ++ ".0"
  else
    let parts := splitDots prerelease
    let lastPart := parts.getLastD ""
    if !strStartsWith prerelease tag then tag ++ ".0"
    else if !lastPart.toList.isEmpty && lastPart.toList.all isDigitChar then
      joinDots (parts.dropLast ++ [toString (digitsToNat lastPart.toList + 1)])
    else joinDots (parts ++ ["0"])

/-- JS `a || b` for an optional string (empty string is falsy):
models `options.tag || 'alpha'`. -/
def jsOrElse (o : Option String) (dflt : String) : String :=
  match o with
  | some s => if s = "" then dflt else s
  | none => dflt

/-- `"a.b.c"` rendering of a major/minor/patch triple. -/
def triple (a b c : Nat) : String :=
  toString a ++ "." ++ toString b ++ "." ++ toString c

/-- `calculateTargetVersion` of version/index.ts (lines 190-224). -/
def calculateTargetVersion (versionArg : String) (v : Version)
    (tagOpt : Option String) : String :=
  let tag := jsOrElse tagOpt "alpha"
  let targetVersion :=
    if versionArg = "major" then triple (v.major + 1) 0 0
    else if versionArg = "minor" then triple v.major (v.minor + 1) 0
    else if versionArg = "patch" then
      if v.prerelease ≠ "" then triple v.major v.minor v.patch
      else triple v.major v.minor (v.patch + 1)
    else if versionArg = "pre" then
      if v.prerelease ≠ "" then
        triple v.major v.minor v.patch ++ "-" ++ incrementPrerelease v.prerelease tag
      else triple v.major v.minor (v.patch + 1) ++ "-" ++ tag ++ ".0"
    else if versionArg = "pre-patch" then
      triple v.major v.minor (v.patch + 1) ++ "-" ++ tag ++ ".0"
    else if versionArg = "pre-minor" then
      triple v.major (v.minor + 1) 0 ++ "-" ++ tag ++ ".0"
    else if versionArg = "pre-major" then
      triple (v.major + 1) 0 0 ++ "-" ++ tag ++ ".0"
    else versionArg
  if v.build ≠ "" then targetVersion ++ "+" ++ v.build else targetVersion

/-! ## Packages, log messages -/

/-- Log levels of utils/display.ts `log(message, level)`. -/
inductive Level where
  | info
  | warn
  | error
  | success
  | plain
deriving DecidableEq, Repr

/-- One log line. Message texts follow the source; a few long texts are
abridged (never in a way a claim depends on). -/
structure Msg where
  level : Level
  text : String
deriving DecidableEq, Repr

/-- A package manifest (package.json): the fields the orchestrator reads.
Dependency records are association lists in JS property order. -/
structure Pkg where
  name : String
  version : String
  dependencies : List (String × String) := []
  peerDependencies : List (String × String) := []
  devDependencies : List (String × String) := []
deriving DecidableEq, Repr

/-- First-match association lookup (JS object property / Map.get). -/
def lookupA {α : Type} (l : List (String × α)) (k : String) : Option α :=
  (l.find? (fun e => e.1 = k)).map Prod.snd

/-- `packageContent[field][packageName] = newVersion` for entries present
with a truthy (nonempty) value. -/
def setDep (deps : List (String × String)) (k v : String) :
    List (String × String) :=
  deps.map (fun e => if e.1 = k && e.2 ≠ "" then (e.1, v) else e)

/-- `updateDependencyVersions` of version/index.ts: rewrite the package's own
name in dependencies/peerDependencies/devDependencies. -/
def updateDependencyVersions (pkg : Pkg) (packageName newVersion : String) :
    Pkg :=
  { pkg with
    dependencies := setDep pkg.dependencies packageName newVersion,
    peerDependencies := setDep pkg.peerDependencies packageName newVersion,
    devDependencies := setDep pkg.devDependencies packageName newVersion }

/-- Outcome of `updateVersion`: the manifest file is rewritten, left alone,
or the process exits (invalid version argument). -/
inductive UpdateResult where
  | noWrite (msgs : List Msg)
  | write (newPkg : Pkg) (msgs : List Msg)
  | fatal (msgs : List Msg)
deriving DecidableEq, Repr

/-- `updateVersion` of version/index.ts (lines 128-166), as a pure function
from the manifest read from disk to the write action performed. -/
def updateVersion (pkg : Pkg) (versionArg : String) (silent : Bool) :
    UpdateResult :=
  if isValidSemVer versionArg then
    let newVersion := versionArg
    let comparison := compareVersions newVersion pkg.version
    if comparison = 0 then
      UpdateResult.noWrite
        (if silent then []
         else [⟨Level.info, "[" ++ pkg.name ++ "] Version " ++ newVersion ++
                 " is already set, no changes needed"⟩])
    else
      let warnMsgs :=
        if comparison < 0 && !silent then
          [⟨Level.warn, "[" ++ pkg.name ++ "] Version downgraded from " ++
             pkg.version ++ " to " ++ newVersion⟩]
        else []
      let p1 := updateDependencyVersions pkg pkg.name newVersion
      let p2 := { p1 with version := newVersion }
      UpdateResult.write p2
        (warnMsgs ++
         (if silent then []
          else [⟨Level.success, "[" ++ pkg.name ++ "] Updated to version " ++
                  newVersion⟩]))
  else
    UpdateResult.fatal
      [⟨Level.error, "[" ++ pkg.name ++ "] Invalid version format: " ++
         versionArg⟩]

/-! ## The `version` command (version/index.ts lines 231-364) -/

/-- The `^`/`~` sigil of a range string: `version.match(/^[~^]/)?.[0] || ''`. -/
def rangeSigil (s : String) : String :=
  match s.toList with
  | c :: _ => if c = '^' ∨ c = '~' then String.mk [c] else ""
  | [] => ""

/-- `version.replace(/^[~^]/, '')`. -/
def stripRangeSigil (s : String) : String :=
  match s.toList with
  | c :: rest => if c = '^' ∨ c = '~' then String.mk rest else s
  | [] => s

/-- `VersionChange` of version/index.ts. -/
structure VersionChange where
  oldVersion : String
  newVersion : String
deriving DecidableEq, Repr

/-- Configuration slice the `version` command reads. -/
structure VConfig where
  name : String
  package : Option String := none
  tag : Option String := none
  monorepo : Bool := true
deriving DecidableEq, Repr

/-- `namePattern.test(s)`: does `s` start with `@scope/`. -/
def isScoped (scope s : String) : Bool :=
  strStartsWith s ("@" ++ scope ++ "/")

/-- `s.replace(namePattern, '')`. -/
def stripScope (scope s : String) : String :=
  if isScoped scope s then strDrop s ("@" ++ scope ++ "/").toList.length else s

/-- Does `q` declare any of the three dependency kinds on `name` (truthy
value), as `collectDependentPackages` checks. -/
def dependsOn (q : Pkg) (name : String) : Bool :=
  [q.dependencies, q.peerDependencies, q.devDependencies].any
    (fun f => f.any (fun e => e.1 = name && e.2 ≠ ""))

/-- `collectDependentPackages` (version/index.ts lines 280-300): state is
(processedPackages, packagesToUpdate) in insertion order; each newly
processed package recursively pulls in its dependents, in workspace order.
Fuel bounds the recursion depth only (siblings share the level's fuel);
each level adds a fresh processed name, so `allPkgs.length + 1` is always
enough. -/
def collectOne (allPkgs : List Pkg) (monorepo : Bool) :
    Nat → List String × List String → Pkg → List String × List String
  | 0, st, _ => st
  | fuel + 1, st, p =>
    if p.name ∈ st.1 then st
    else
      let st0 := (st.1 ++ [p.name], st.2 ++ [p.name])
      if monorepo then
        (allPkgs.filter (fun q => dependsOn q p.name)).foldl
          (fun st' q => collectOne allPkgs monorepo fuel st' q) st0
      else st0

/-- `targetPackages.forEach(collectDependentPackages)`. -/
def collectMany (allPkgs : List Pkg) (monorepo : Bool) (fuel : Nat)
    (st : List String × List String) (targets : List Pkg) :
    List String × List String :=
  targets.foldl (fun st' p => collectOne allPkgs monorepo fuel st' p) st

/-- The per-package body of the update pass (version/index.ts lines 304-326):
skip when the version is already the target, otherwise warn on downgrade,
rewrite via `updateVersion(dir, target, true)`, re-read, record the
`VersionChange`, and log success when not a downgrade. `Except` carries the
fatal (process-exit) case of an invalid target version. -/
def updatePhaseStep (pkg : Pkg) (targetVersion : String) :
    Except (List Msg) (Pkg × Option (String × VersionChange) × List Msg) :=
  if pkg.version = targetVersion then
    Except.ok (pkg, none,
      [⟨Level.info, "[" ++ pkg.name ++ "] Version " ++ targetVersion ++
         " is already set, no changes needed"⟩])
  else
    let oldVersion := pkg.version
    let dng := isDowngrade targetVersion oldVersion
    let warnM :=
      if dng then
        [⟨Level.warn, "[" ++ pkg.name ++ "] Version downgraded from " ++
           oldVersion ++ " to " ++ targetVersion⟩]
      else []
    match updateVersion pkg targetVersion true with
    | UpdateResult.fatal m => Except.error (warnM ++ m)
    | UpdateResult.write p _ =>
      Except.ok (p, some (pkg.name, ⟨oldVersion, p.version⟩),
        warnM ++
        (if !dng then
          [⟨Level.success, "[" ++ pkg.name ++ "] Updated to version " ++
             p.version⟩]
         else []))
    | UpdateResult.noWrite _ =>
      Except.ok (pkg, some (pkg.name, ⟨oldVersion, pkg.version⟩),
        warnM ++
        (if !dng then
          [⟨Level.success, "[" ++ pkg.name ++ "] Updated to version " ++
             pkg.version⟩]
         else []))

/-- Replace a package (by name) in the workspace: a manifest write. -/
def replacePkg (ws : List Pkg) (p : Pkg) : List Pkg :=
  ws.map (fun q => if q.name = p.name then p else q)

/-- The update pass over `packagesToUpdate`, threading the workspace (each
iteration re-reads the current file contents, as the source does). -/
def runUpdates :
    List Pkg → List String → String →
    Except (List Msg) (List Pkg × List (String × VersionChange) × List Msg)
  | ws, [], _ => Except.ok (ws, [], [])
  | ws, n :: rest, target =>
    match ws.find? (fun p => p.name = n) with
    | none => runUpdates ws rest target
    | some pkg =>
      match updatePhaseStep pkg target with
      | Except.error m => Except.error m
      | Except.ok (p', chg, msgs) =>
        match runUpdates (replacePkg ws p') rest target with
        | Except.error m => Except.error (msgs ++ m)
        | Except.ok (ws', chgs, msgs') =>
          Except.ok (ws', chg.toList ++ chgs, msgs ++ msgs')

/-- The per-entry body of the dependency-update pass (version/index.ts lines
336-355): when the entry names a changed package and its stripped version
differs from the new one, rewrite to `sigil ++ newVersion` and log a
downgrade warning or a success line. -/
def updateDepEntry (pkgName : String)
    (changes : List (String × VersionChange)) (entry : String × String) :
    (String × String) × List Msg :=
  match lookupA changes entry.1 with
  | none => (entry, [])
  | some versionChange =>
    let currentVersion := stripRangeSigil entry.2
    if currentVersion = versionChange.newVersion then (entry, [])
    else
      let range := rangeSigil entry.2
      let m :=
        if isDowngrade versionChange.newVersion currentVersion then
          ⟨Level.warn, "[" ++ pkgName ++ "] Dependency " ++ entry.1 ++
             " downgraded from " ++ currentVersion ++ " to " ++
             versionChange.newVersion⟩
        else
          ⟨Level.success, "[" ++ pkgName ++ "] Updated dependency " ++
             entry.1 ++ " to version " ++ versionChange.newVersion⟩
      ((entry.1, range ++ versionChange.newVersion), [m])

/-- The dependency-update pass for one package: all three fields, in order. -/
def updateDepsForPkg (changes : List (String × VersionChange)) (pkg : Pkg) :
    Pkg × List Msg :=
  let f := fun (deps : List (String × String)) =>
    let rs := deps.map (updateDepEntry pkg.name changes)
    (rs.map Prod.fst, (rs.map Prod.snd).flatten)
  let d := f pkg.dependencies
  let p := f pkg.peerDependencies
  let v := f pkg.devDependencies
  ({ pkg with dependencies := d.1, peerDependencies := p.1,
              devDependencies := v.1 },
   d.2 ++ p.2 ++ v.2)

/-- The dependency-update pass over the whole workspace. -/
def runDepUpdates (changes : List (String × VersionChange)) :
    List Pkg → List Pkg × List Msg
  | [] => ([], [])
  | p :: rest =>
    let r := updateDepsForPkg changes p
    let rr := runDepUpdates changes rest
    (r.1 :: rr.1, r.2 ++ rr.2)

/-- Result of a whole `version` invocation. -/
structure VersionOutcome where
  workspace : List Pkg
  msgs : List Msg
  exitCode : Nat
deriving DecidableEq, Repr

/-- The seven bump keywords of the `version` command. -/
def versionKeywords : List String :=
  ["major", "minor", "patch", "pre", "pre-patch", "pre-minor", "pre-major"]

/-- The `version` command (version/index.ts lines 231-364): compute the
target from the root manifest, select target packages, collect dependents,
run the update pass, then the dependency-update pass over the whole
workspace. The workspace is `root :: members` (packages-directory order). -/
def versionCommand (cfg : VConfig) (root : Pkg) (members : List Pkg)
    (versionArg : String) : VersionOutcome :=
  let ws := root :: (if cfg.monorepo then members else [])
  let targetE : Except (List Msg) String :=
    if versionArg ∈ versionKeywords then
      match parseVersion root.version with
      | none =>
        Except.error
          [⟨Level.error, "Root package version " ++ root.version ++
             " is not a valid semver"⟩]
      | some currentVersion =>
        Except.ok (calculateTargetVersion versionArg currentVersion cfg.tag)
    else Except.ok versionArg
  match targetE with
  | Except.error m => ⟨ws, m, 1⟩
  | Except.ok targetVersion =>
    let targetPackages :=
      match cfg.package with
      | some pname => ws.filter (fun p => stripScope cfg.name p.name = pname)
      | none => ws
    if cfg.package.isSome && targetPackages.isEmpty then
      ⟨ws, [⟨Level.error, "Package not found"⟩], 1⟩
    else
      let collected :=
        collectMany ws cfg.monorepo (ws.length + 1) ([], []) targetPackages
      match runUpdates ws collected.2 targetVersion with
      | Except.error m => ⟨ws, m, 1⟩
      | Except.ok (ws', changes, msgs) =>
        let r := runDepUpdates changes ws'
        ⟨r.1, msgs ++ r.2, 0⟩

/-! ## Dependency sort and cycle detection (utils/package.ts) -/

/-- JS `Map.set`: overwrite in place if the key exists, else append. -/
def setA {α : Type} (l : List (String × α)) (k : String) (v : α) :
    List (String × α) :=
  if (lookupA l k).isSome then
    l.map (fun e => if e.1 = k then (e.1, v) else e)
  else l ++ [(k, v)]

/-- `getPackageDependencies`: keys of `dependencies` matching `@scope/`,
scope stripped. Also the internal-dependency extraction of `buildAll`. -/
def internalShortDeps (scope : String) (p : Pkg) : List String :=
  ((p.dependencies.map Prod.fst).filter (fun d => isScoped scope d)).map
    (stripScope scope)

/-- The `packagesMap` / `dependencyGraph` construction pass of
`sortPackagesByDependencies` (insertion order; JS `Map.set`). -/
def buildSortGraph (scope : String) (pkgs : List Pkg) :
    List (String × Pkg) × List (String × List String) :=
  pkgs.foldl
    (fun acc p =>
      let short := stripScope scope p.name
      (setA acc.1 short p, setA acc.2 short (internalShortDeps scope p)))
    ([], [])

/-- The `dependencyGraph` of `sortPackagesByDependencies`. -/
def sortGraph (scope : String) (pkgs : List Pkg) :
    List (String × List String) :=
  (buildSortGraph scope pkgs).2

/-- The message of the error thrown by `calculateDepth` on a cycle. -/
def circularMsg (n : String) : String := "Circular dependency detected: " ++ n

/-- The depth-DFS state: `visited` and `depthMap` of
`sortPackagesByDependencies`. -/
structure DState where
  visited : List String
  depth : List (String × Nat)
deriving DecidableEq, Repr

/-- Fold a depth computation over a dependency list, propagating errors,
threading the state and taking the maximum result (the `maxDepth` loop of
`calculateDepth`). -/
def depthFold (f : DState → String → Except String (Nat × DState)) :
    DState → List String → Except String (Nat × DState)
  | st, [] => Except.ok (0, st)
  | st, d :: rest =>
    match f st d with
    | Except.error e => Except.error e
    | Except.ok (n, st') =>
      match depthFold f st' rest with
      | Except.error e => Except.error e
      | Except.ok (m, st'') => Except.ok (max n m, st'')

/-- `calculateDepth` (utils/package.ts lines 84-117). The in-progress set
`temp` is the extra parameter (pushed on entry, popped on return, exactly
as the source adds/deletes around the recursion). Fuel bounds the recursion
depth only (the dependency loop at one level shares the level's fuel); the
recursion grows `temp` by a fresh key each level, so any fuel above the
number of graph entries is enough (proved below); exhaustion yields a
distinguished error that provably never occurs from the top-level call. -/
def calcDepthOne (g : List (String × List String)) :
    Nat → List String → DState → String → Except String (Nat × DState)
  | 0, _, _, _ => Except.error "fuel exhausted"
  | fuel + 1, temp, st, name =>
    if name = "" || !(lookupA g name).isSome then Except.ok (0, st)
    else if name ∈ temp then Except.error (circularMsg name)
    else if name ∈ st.visited then
      Except.ok ((lookupA st.depth name).getD 0, st)
    else
      let deps := (lookupA g name).getD []
      match depthFold (fun st' d => calcDepthOne g fuel (name :: temp) st' d)
          st (deps.filter (fun d => (lookupA g d).isSome)) with
      | Except.error e => Except.error e
      | Except.ok (maxDepth, st') =>
        Except.ok (maxDepth + 1,
          ⟨name :: st'.visited, (name, maxDepth + 1) :: st'.depth⟩)

/-- The `calculateDepth` loop over all keys of the graph
(`for (const pkgName of packagesMap.keys()) if (!visited) calculateDepth`). -/
def calcDepthAll (g : List (String × List String)) :
    Except String (Nat × DState) :=
  depthFold (fun st n => calcDepthOne g (g.length + 1) [] st n)
    ⟨[], []⟩ (g.map Prod.fst)

/-- Stable insertion into a sorted list under a JS comparator: an element is
placed after everything that compares `≤ 0` against it. -/
def stableInsertBy {α : Type} (cmp : α → α → Int) (x : α) :
    List α → List α
  | [] => [x]
  | y :: ys => if cmp y x ≤ 0 then y :: stableInsertBy cmp x ys
               else x :: y :: ys

/-- Stable sort under a JS comparator (JS `Array.prototype.sort` is stable;
for the consistent comparators used here any stable sort agrees with it). -/
def stableSortBy {α : Type} (cmp : α → α → Int) (l : List α) : List α :=
  l.foldl (fun acc x => stableInsertBy cmp x acc) []

/-- `sortPackagesByDependencies` (utils/package.ts lines 61-135): build the
graph, run `calculateDepth` for every key, then sort entries by dependency
count ascending, tie-broken by depth ascending. An `error` models the
thrown `Circular dependency detected` exception. -/
def sortPackagesByDependencies (scope : String) (pkgs : List Pkg) :
    Except String (List Pkg) :=
  let mg := buildSortGraph scope pkgs
  let g := mg.2
  match calcDepthAll g with
  | Except.error e => Except.error e
  | Except.ok (_, st) =>
    let cmp := fun (a b : String × Pkg) =>
      let depsA := ((lookupA g a.1).getD []).length
      let depsB := ((lookupA g b.1).getD []).length
      if depsA ≠ depsB then (depsA : Int) - depsB
      else ((lookupA st.depth a.1).getD 0 : Int) -
        ((lookupA st.depth b.1).getD 0 : Int)
    Except.ok ((stableSortBy cmp mg.1).map Prod.snd)

/-- Start of the `build` command (build/index.ts lines 37-43): the package
list is sorted (running the cycle check) before `buildAll` is invoked, so a
thrown `CircularDependencyError` aborts with zero builds dispatched and the
process exits non-zero (`unhandledRejection` handler calls
`process.exit(1)`). -/
inductive BuildStart where
  | aborted (msg : String)
  | scheduled (sorted : List Pkg)
deriving DecidableEq, Repr

/-- The `build` command up to the hand-off to `buildAll`. -/
def buildStart (scope : String) (pkgs : List Pkg) : BuildStart :=
  match sortPackagesByDependencies scope pkgs with
  | Except.error e => BuildStart.aborted e
  | Except.ok sorted => BuildStart.scheduled sorted

/-- Keys of a graph. -/
def keyList (g : List (String × List String)) : List String := g.map Prod.fst

/-- An internal dependency edge of a graph: both endpoints are keys and the
target occurs in the source's adjacency list. -/
def edgeRel (g : List (String × List String)) (a b : String) : Prop :=
  a ∈ keyList g ∧ b ∈ keyList g ∧ b ∈ (lookupA g a).getD []

/-- The graph contains a cycle: some node reaches itself in one or more
edge steps. -/
def hasCycle (g : List (String × List String)) : Prop :=
  ∃ a, Relation.TransGen (edgeRel g) a a

/-! ## `buildAll` dependency scheduling (builder, dependency-ordered mode) -/

/-- The single graph-building pass of `buildAll` (lines 232-248): for each
sorted package, the name map gains its own entry first, then its internal
dependencies are kept only when `packageNameMap.get(dep)` already resolves
and the resolved path is in the package list (an unresolvable `get` yields
`undefined`, and `packages.includes(undefined)` is false, silently dropping
the edge). -/
def buildAllGraphGo (scope : String) (allNames : List String) :
    List Pkg → List (String × String) → List (String × List String)
  | [], _ => []
  | p :: rest, nmap =>
    let short := stripScope scope p.name
    let nmap' := setA nmap short p.name
    let deps :=
      (internalShortDeps scope p).filter (fun d =>
        match lookupA nmap' d with
        | some full => allNames.contains full
        | none => false)
    (short, deps) :: buildAllGraphGo scope allNames rest nmap'

/-- The `packageNameMap` after processing a list of packages
(`packageNameMap.set(pkgName, pkgPath)` per package). -/
def nameMapFold (scope : String) (m : List (String × String))
    (l : List Pkg) : List (String × String) :=
  l.foldl (fun m p => setA m (stripScope scope p.name) p.name) m

/-- The `dependencyGraph` and final `packageNameMap` of `buildAll`. -/
def buildAllGraph (scope : String) (sorted : List Pkg) :
    List (String × List String) × List (String × String) :=
  (buildAllGraphGo scope (sorted.map Pkg.name) sorted [],
   nameMapFold scope [] sorted)

/-- The recorded dependencies `buildAll` will wait on for a package. -/
def recordedDeps (scope : String) (sorted : List Pkg) (short : String) :
    List String :=
  (lookupA (buildAllGraph scope sorted).1 short).getD []

/-- The dispatch condition of the polling guard (lines 282-284): the busy
wait `while (deps.filter(dep => !built.has(nameMap.get(dep))).length > 0 &&
!failed)` exits — and `build(pkgPath, config)` is then invoked — exactly
when every recorded dependency is in the built set **or** the failure flag
is set. -/
def canStart (scope : String) (sorted : List Pkg) (short : String)
    (built : List String) (failed : Bool) : Bool :=
  ((recordedDeps scope sorted short).filter (fun dep =>
      !built.contains
        ((lookupA (buildAllGraph scope sorted).2 dep).getD ""))).isEmpty
  || failed

/-! ## The `publish` command (publish/index.ts) -/

/-- The registry collaborators: `npm view <name> version` results (`none`
models the throw for an absent package) and the success of an actual
`npm publish` run. -/
structure RegistryEnv where
  view : List (String × String)
  publishOk : String → Bool

/-- `publishPackage` (publish/index.ts lines 108-170): skip (returning
`true`) when the registry already has exactly this version, otherwise
attempt the publish. -/
def publishPackage (env : RegistryEnv) (pkg : Pkg) : Bool × List Msg :=
  let attempt : Bool × List Msg :=
    let ok := env.publishOk pkg.name
    (ok,
     [⟨Level.plain, "[" ++ pkg.name ++ "] Publishing version " ++
        pkg.version ++ "..."⟩] ++
     (if ok then
       [⟨Level.success, "[" ++ pkg.name ++ "] Published successfully"⟩]
      else [⟨Level.error, "[" ++ pkg.name ++ "] Failed to publish"⟩]))
  match lookupA env.view pkg.name with
  | some publishedVersion =>
    if publishedVersion = pkg.version then
      (true,
       [⟨Level.info, "[" ++ pkg.name ++ "] Version " ++ pkg.version ++
          " already published, skipping"⟩])
    else attempt
  | none => attempt

/-- Configuration slice the `publish` command reads. -/
structure PubConfig where
  name : String
  package : Option String := none
  monorepo : Bool := true
  buildMain : Bool := false
deriving Repr

/-- Result of a whole `publish` invocation. -/
structure PublishOutcome where
  publishedCount : Nat
  msgs : List Msg
  exitCode : Nat
deriving DecidableEq, Repr

/-- The publish loop (publish/index.ts lines 224-243): version-mismatch skip
when no specific package is targeted, count successes (a registry skip
counts as success), record failure; a failure with a specific target exits
immediately. Returns (count, failed, messages, exited-early). -/
def publishLoop (cfg : PubConfig) (env : RegistryEnv) (rootVersion : String) :
    List Pkg → Nat → Bool → Nat × Bool × List Msg × Bool
  | [], c, f => (c, f, [], false)
  | p :: rest, c, f =>
    if cfg.package.isNone && p.version ≠ rootVersion then
      let r := publishLoop cfg env rootVersion rest c f
      (r.1, r.2.1,
       ⟨Level.info, "[" ++ p.name ++ "] Skipping (version " ++ p.version ++
          " differs from root version " ++ rootVersion ++ ")"⟩ :: r.2.2.1,
       r.2.2.2)
    else
      let res := publishPackage env p
      if res.1 then
        let r := publishLoop cfg env rootVersion rest (c + 1) f
        (r.1, r.2.1, res.2 ++ r.2.2.1, r.2.2.2)
      else if cfg.package.isSome then (c, true, res.2, true)
      else
        let r := publishLoop cfg env rootVersion rest c true
        (r.1, r.2.1, res.2 ++ r.2.2.1, r.2.2.2)

/-- The `publish` command (publish/index.ts lines 177-253). -/
def publishCommand (cfg : PubConfig) (env : RegistryEnv) (root : Pkg)
    (members : List Pkg) : PublishOutcome :=
  let rootVersion := root.version
  let packages : List Pkg :=
    if cfg.monorepo then (if cfg.buildMain then [root] else []) ++ members
    else [root]
  match sortPackagesByDependencies cfg.name packages with
  | Except.error e => ⟨0, [⟨Level.error, e⟩], 1⟩
  | Except.ok sorted =>
    let targetPackages : List Pkg :=
      match cfg.package with
      | some pname =>
        sorted.filter (fun p => stripScope cfg.name p.name = pname)
      | none => sorted
    if targetPackages.isEmpty then
      ⟨0, [⟨Level.error, "No matching packages found to publish"⟩], 1⟩
    else
      let r := publishLoop cfg env rootVersion targetPackages 0 false
      let publishedCount := r.1
      let failed := r.2.1
      let msgs := r.2.2.1
      let exited := r.2.2.2
      if exited then ⟨publishedCount, msgs, 1⟩
      else if failed then
        ⟨publishedCount,
         msgs ++ [⟨Level.error, "Publish completed with errors"⟩], 1⟩
      else if publishedCount = 0 then
        ⟨publishedCount, msgs ++ [⟨Level.info, "No packages published"⟩], 0⟩
      else
        ⟨publishedCount,
         msgs ++ [⟨Level.success, "Successfully published " ++
           toString publishedCount ++ " package(s)"⟩], 0⟩

/-! ## Invariants of the depth computation (for the cycle-detection claim) -/

/-- State extension: the visited set grows and recorded depths persist. -/
def stExt (st st' : DState) : Prop :=
  (∀ n, n ∈ st.visited → n ∈ st'.visited) ∧
  (∀ n k, lookupA st.depth n = some k → lookupA st'.depth n = some k)

/-- Well-formed depth state for a graph: depths are recorded exactly for
visited nodes, and every visited node's depth strictly dominates the
recorded depths of its in-graph dependencies. -/
def goodState (g : List (String × List String)) (st : DState) : Prop :=
  (∀ n, n ∈ st.visited ↔ (lookupA st.depth n).isSome = true) ∧
  (∀ n, n ∈ st.visited →
    ∃ k, lookupA st.depth n = some k ∧
      ∀ d, d ∈ (lookupA g n).getD [] → (lookupA g d).isSome = true →
        ∃ kd, lookupA st.depth d = some kd ∧ kd < k)

/-- Induction package for `calcDepthOne` at a given fuel: errors are
circular-dependency reports naming a graph key, and successful runs extend
the state well-formedly, leave in-progress nodes unvisited, and record a
depth for the processed name when it is a graph key. -/
def oneSpec (g : List (String × List String)) (fuel : Nat) : Prop :=
  ∀ temp st name, temp.Nodup → (∀ t ∈ temp, t ∈ keyList g) →
    (keyList g).length + 1 ≤ fuel + temp.length →
    goodState g st → (∀ t ∈ temp, t ∉ st.visited) →
    (∀ e, calcDepthOne g fuel temp st name = Except.error e →
      ∃ p, p ∈ keyList g ∧ e = circularMsg p) ∧
    (∀ d st', calcDepthOne g fuel temp st name = Except.ok (d, st') →
      stExt st st' ∧ goodState g st' ∧ (∀ t ∈ temp, t ∉ st'.visited) ∧
      ((lookupA g name).isSome = true →
        name ∈ st'.visited ∧ ∃ k, k ≤ d ∧ lookupA st'.depth name = some k))

/-- The same package for `depthFold` over a worklist. -/
def foldSpec (g : List (String × List String)) (fuel : Nat) : Prop :=
  ∀ temp, temp.Nodup → (∀ t ∈ temp, t ∈ keyList g) →
    (keyList g).length + 1 ≤ fuel + temp.length →
    ∀ names st, goodState g st → (∀ t ∈ temp, t ∉ st.visited) →
    (∀ e, depthFold (fun st2 d => calcDepthOne g fuel temp st2 d) st names =
        Except.error e → ∃ p, p ∈ keyList g ∧ e = circularMsg p) ∧
    (∀ d st', depthFold (fun st2 d => calcDepthOne g fuel temp st2 d) st
        names = Except.ok (d, st') →
      stExt st st' ∧ goodState g st' ∧ (∀ t ∈ temp, t ∉ st'.visited) ∧
      (∀ n, n ∈ names → (lookupA g n).isSome = true →
        n ∈ st'.visited ∧ ∃ k, k ≤ d ∧ lookupA st'.depth n = some k))

/-! ## Basic lemmas -/

theorem charListLt_irrefl (cs : List Char) : charListLt cs cs = false := by
  induction cs with
  | nil => rfl
  | cons c rest ih => simp [charListLt, ih]

theorem comparePreLists_self (l : List String) : comparePreLists l l = 0 := by
  induction l with
  | nil => rfl
  | cons a rest ih =>
    cases h : jsParseInt a with
    | none => simp [comparePreLists, h, jsStrLt, charListLt_irrefl, ih]
    | some x => simp [comparePreLists, h, ih]

/-- `compareVersions` is reflexively zero on every string (identical strings
parse identically or both fail). -/
theorem compareVersions_self (s : String) : compareVersions s s = 0 := by
  unfold compareVersions
  cases h : parseVersion s with
  | none => rfl
  | some v =>
    by_cases hp : v.prerelease = "" <;>
      simp [hp, comparePreLists_self]

theorem sigil_append_strip (s : String) :
    rangeSigil s ++ stripRangeSigil s = s := by
  cases s with
  | mk data =>
    cases data with
    | nil => rfl
    | cons c rest =>
      show rangeSigil (String.mk (c :: rest)) ++
        stripRangeSigil (String.mk (c :: rest)) = String.mk (c :: rest)
      unfold rangeSigil stripRangeSigil
      by_cases hc : c = '^' ∨ c = '~'
      · simp [hc]; rfl
      · simp [hc]

theorem splitDotsCore_ne_nil (cs acc : List Char) :
    splitDotsCore cs acc ≠ [] := by
  induction cs generalizing acc with
  | nil => simp [splitDotsCore]
  | cons c rest ih =>
    by_cases hc : c = '.' <;> simp [splitDotsCore, hc, ih]

theorem joinDotsCore_cons (s : List Char) (l : List (List Char))
    (h : l ≠ []) : joinDotsCore (s :: l) = s ++ '.' :: joinDotsCore l := by
  cases l with
  | nil => exact absurd rfl h
  | cons t ts => rfl

theorem joinDotsCore_split (cs : List Char) : ∀ acc,
    joinDotsCore (splitDotsCore cs acc) = acc.reverse ++ cs := by
  induction cs with
  | nil => intro acc; simp [splitDotsCore, joinDotsCore]
  | cons c rest ih =>
    intro acc
    by_cases hc : c = '.'
    · subst hc
      rw [splitDotsCore, if_pos rfl,
        joinDotsCore_cons _ _ (splitDotsCore_ne_nil rest []), ih []]
      simp
    · rw [splitDotsCore, if_neg hc, ih (c :: acc)]
      simp

theorem joinDotsCore_append_singleton (l : List (List Char))
    (s : List Char) (h : l ≠ []) :
    joinDotsCore (l ++ [s]) = joinDotsCore l ++ '.' :: s := by
  induction l with
  | nil => exact absurd rfl h
  | cons x xs ih =>
    cases xs with
    | nil => rfl
    | cons y ys =>
      rw [List.cons_append, joinDotsCore_cons x ((y :: ys) ++ [s]) (by simp),
        joinDotsCore_cons x (y :: ys) (by simp), ih (by simp)]
      simp

/-- JS `prerelease.split('.')` followed by pushing `'0'` and joining is the
same as appending the literal `".0"`. -/
theorem joinDots_splitDots_push_zero (p : String) :
    joinDots (splitDots p ++ ["0"]) = p ++ ".0" := by
  cases p with
  | mk data =>
    unfold joinDots splitDots
    rw [List.map_append, List.map_map]
    have hmap : ∀ (l : List (List Char)),
        l.map (String.toList ∘ String.mk) = l := by
      intro l
      induction l with
      | nil => rfl
      | cons x xs ihl => simp [ihl, String.toList]
    rw [hmap]
    have h0 : (["0"] : List String).map String.toList = [['0']] := by decide
    rw [h0]
    show String.mk (joinDotsCore (splitDotsCore data [] ++ [['0']])) =
      String.mk data ++ ".0"
    rw [joinDotsCore_append_singleton _ _ (splitDotsCore_ne_nil data []),
      joinDotsCore_split data []]
    show String.mk ((data ++ ['.', '0'] : List Char)) =
      String.mk data ++ ".0"
    have : (".0" : String) = String.mk ['.', '0'] := by decide
    rw [this]
    rfl

/-! ## C10: unparsable versions compare equal, so no downgrade warning -/

/-- C10: whenever either version string fails semver parsing,
`compareVersions` returns `0` rather than raising, and consequently the
downgrade test (`compareVersions < 0`), used at every downgrade-warning
site, is false in both directions. -/
theorem compareVersions_unparsable_zero (s1 s2 : String)
    (h : parseVersion s1 = none ∨ parseVersion s2 = none) :
    compareVersions s1 s2 = 0 ∧ isDowngrade s1 s2 = false ∧
      isDowngrade s2 s1 = false := by
  have hz : compareVersions s1 s2 = 0 ∧ compareVersions s2 s1 = 0 := by
    unfold compareVersions
    rcases h with h | h <;>
      · rw [h]
        cases parseVersion s1 <;> cases parseVersion s2 <;> simp_all
  refine ⟨hz.1, ?_, ?_⟩ <;> simp [isDowngrade, hz.1, hz.2]

/-- Witness for C10 at a concrete unparsable input. -/
theorem compareVersions_unparsable_zero_witness :
    compareVersions "not-a-version" "1.0.0" = 0 ∧
      isDowngrade "not-a-version" "1.0.0" = false ∧
      isDowngrade "1.0.0" "not-a-version" = false :=
  compareVersions_unparsable_zero "not-a-version" "1.0.0"
    (Or.inl (by decide))

/-! ## C8: setting an explicit version equal to the current one is a no-op -/

/-- C8: in the update pass of the `version` command, a package whose current
version equals the target is skipped with an informational `already set`
message — no manifest write, no recorded change, no `Updated` log entry;
and `updateVersion` itself, given an explicit valid semver equal to the
package's current version, performs no write and logs only the
informational message. -/
theorem version_explicit_equal_is_noop :
    (∀ (pkg : Pkg) (target : String), pkg.version = target →
      updatePhaseStep pkg target =
        Except.ok (pkg, none,
          [⟨Level.info, "[" ++ pkg.name ++ "] Version " ++ target ++
             " is already set, no changes needed"⟩])) ∧
    (∀ (pkg : Pkg) (arg : String), isValidSemVer arg = true →
      arg = pkg.version →
      updateVersion pkg arg false =
        UpdateResult.noWrite
          [⟨Level.info, "[" ++ pkg.name ++ "] Version " ++ arg ++
             " is already set, no changes needed"⟩]) := by
  constructor
  · intro pkg target h
    unfold updatePhaseStep
    simp [h]
  · intro pkg arg hv h
    subst h
    unfold updateVersion
    simp [hv, compareVersions_self]

/-- Witness for C8 at a concrete package. -/
theorem version_explicit_equal_is_noop_witness :
    updatePhaseStep { name := "@w/a", version := "1.2.3" } "1.2.3" =
      Except.ok ({ name := "@w/a", version := "1.2.3" }, none,
        [⟨Level.info,
           "[@w/a] Version 1.2.3 is already set, no changes needed"⟩]) ∧
    updateVersion { name := "@w/a", version := "1.2.3" } "1.2.3" false =
      UpdateResult.noWrite
        [⟨Level.info,
           "[@w/a] Version 1.2.3 is already set, no changes needed"⟩] :=
  ⟨version_explicit_equal_is_noop.1
      { name := "@w/a", version := "1.2.3" } "1.2.3" rfl,
   version_explicit_equal_is_noop.2
      { name := "@w/a", version := "1.2.3" } "1.2.3" (by decide) rfl⟩

/-! ## C7: dependency-range rewriting preserves the sigil, downgrades warn -/

/-- C7: for an entry whose dependency name has a recorded version change,
the rewritten range is the original leading `^`/`~` sigil (if any) followed
by the new version; a warning is emitted exactly when the new version
compares below the previously declared (stripped) range; and no emitted
message is an error. -/
theorem updateDepEntry_rewrites_preserving_sigil
    (pkgName : String) (changes : List (String × VersionChange))
    (dep range : String) (vc : VersionChange)
    (h : lookupA changes dep = some vc) :
    (updateDepEntry pkgName changes (dep, range)).1 =
      (dep, rangeSigil range ++ vc.newVersion) ∧
    ((∃ m ∈ (updateDepEntry pkgName changes (dep, range)).2,
        m.level = Level.warn) ↔
      isDowngrade vc.newVersion (stripRangeSigil range) = true) ∧
    (∀ m ∈ (updateDepEntry pkgName changes (dep, range)).2,
      m.level ≠ Level.error) := by
  unfold updateDepEntry
  simp only [h]
  by_cases he : stripRangeSigil range = vc.newVersion
  · have hr : range = rangeSigil range ++ vc.newVersion := by
      rw [← he, sigil_append_strip]
    have hd : isDowngrade vc.newVersion (stripRangeSigil range) = false := by
      rw [he]; simp [isDowngrade, compareVersions_self]
    simp [he, ← hr, hd, isDowngrade, compareVersions_self]
  · by_cases hd : isDowngrade vc.newVersion (stripRangeSigil range) = true <;>
      simp_all

/-- Witness for C7: a caret range being upgraded (no warning) and a tilde
range being downgraded (warning). -/
theorem updateDepEntry_rewrites_preserving_sigil_witness :
    (updateDepEntry "@w/b" [("@w/a", ⟨"1.0.0", "1.0.1"⟩)]
        ("@w/a", "^1.0.0")).1 = ("@w/a", "^1.0.1") ∧
    ((∃ m ∈ (updateDepEntry "@w/b" [("@w/a", ⟨"1.0.0", "1.0.1"⟩)]
        ("@w/a", "^1.0.0")).2, m.level = Level.warn) ↔
      isDowngrade "1.0.1" (stripRangeSigil "^1.0.0") = true) ∧
    (∀ m ∈ (updateDepEntry "@w/b" [("@w/a", ⟨"1.0.0", "1.0.1"⟩)]
        ("@w/a", "^1.0.0")).2, m.level ≠ Level.error) := by
  have h := updateDepEntry_rewrites_preserving_sigil "@w/b"
    [("@w/a", ⟨"1.0.0", "1.0.1"⟩)] "@w/a" "^1.0.0" ⟨"1.0.0", "1.0.1"⟩
    (by decide)
  exact ⟨by rw [h.1]; decide, h.2.1, h.2.2⟩

/-! ## C1: the scheduler can dispatch a package whose dependency has not
reported success -/

/-- C1 (code bug): in dependency-ordered mode the claimed guarantee fails
twice on the acyclic workspace `{a, b→a, c→{a,b}, d→c}`.
The sort comparator orders by dependency **count** first, so `d` (one
dependency, depth 4) precedes `c` (two dependencies, depth 3); the
single-pass graph construction then silently drops `d`'s edge to the
not-yet-mapped `c`, so `d`'s recorded dependency list is empty and its
guard dispatches `build` at the very start, with `c` unbuilt. Moreover the
polling guard's loop condition `... && !failed` makes any dependent
dispatch as soon as the global failure flag is set (`b` starts with `a`
unbuilt once `failed` holds), contradicting the spec's "on global failure
the guard abandons without building". -/
theorem scheduler_dispatches_with_unbuilt_dependency :
    buildStart "m"
      [⟨"@m/a", "1.0.0", [], [], []⟩,
       ⟨"@m/b", "1.0.0", [("@m/a", "^1.0.0")], [], []⟩,
       ⟨"@m/c", "1.0.0", [("@m/a", "^1.0.0"), ("@m/b", "^1.0.0")], [], []⟩,
       ⟨"@m/d", "1.0.0", [("@m/c", "^1.0.0")], [], []⟩] =
      BuildStart.scheduled
        [⟨"@m/a", "1.0.0", [], [], []⟩,
         ⟨"@m/b", "1.0.0", [("@m/a", "^1.0.0")], [], []⟩,
         ⟨"@m/d", "1.0.0", [("@m/c", "^1.0.0")], [], []⟩,
         ⟨"@m/c", "1.0.0", [("@m/a", "^1.0.0"), ("@m/b", "^1.0.0")], [], []⟩] ∧
    internalShortDeps "m" ⟨"@m/d", "1.0.0", [("@m/c", "^1.0.0")], [], []⟩ =
      ["c"] ∧
    recordedDeps "m"
      [⟨"@m/a", "1.0.0", [], [], []⟩,
       ⟨"@m/b", "1.0.0", [("@m/a", "^1.0.0")], [], []⟩,
       ⟨"@m/d", "1.0.0", [("@m/c", "^1.0.0")], [], []⟩,
       ⟨"@m/c", "1.0.0", [("@m/a", "^1.0.0"), ("@m/b", "^1.0.0")], [], []⟩]
      "d" = [] ∧
    canStart "m"
      [⟨"@m/a", "1.0.0", [], [], []⟩,
       ⟨"@m/b", "1.0.0", [("@m/a", "^1.0.0")], [], []⟩,
       ⟨"@m/d", "1.0.0", [("@m/c", "^1.0.0")], [], []⟩,
       ⟨"@m/c", "1.0.0", [("@m/a", "^1.0.0"), ("@m/b", "^1.0.0")], [], []⟩]
      "d" [] false = true ∧
    recordedDeps "m"
      [⟨"@m/a", "1.0.0", [], [], []⟩,
       ⟨"@m/b", "1.0.0", [("@m/a", "^1.0.0")], [], []⟩,
       ⟨"@m/d", "1.0.0", [("@m/c", "^1.0.0")], [], []⟩,
       ⟨"@m/c", "1.0.0", [("@m/a", "^1.0.0"), ("@m/b", "^1.0.0")], [], []⟩]
      "b" = ["a"] ∧
    canStart "m"
      [⟨"@m/a", "1.0.0", [], [], []⟩,
       ⟨"@m/b", "1.0.0", [("@m/a", "^1.0.0")], [], []⟩,
       ⟨"@m/d", "1.0.0", [("@m/c", "^1.0.0")], [], []⟩,
       ⟨"@m/c", "1.0.0", [("@m/a", "^1.0.0"), ("@m/b", "^1.0.0")], [], []⟩]
      "b" [] true = true ∧
    canStart "m"
      [⟨"@m/a", "1.0.0", [], [], []⟩,
       ⟨"@m/b", "1.0.0", [("@m/a", "^1.0.0")], [], []⟩,
       ⟨"@m/d", "1.0.0", [("@m/c", "^1.0.0")], [], []⟩,
       ⟨"@m/c", "1.0.0", [("@m/a", "^1.0.0"), ("@m/b", "^1.0.0")], [], []⟩]
      "b" [] false = false := by
  decide

/-! ## C2: an already-published package is counted as published -/

/-- C2 counterexample: in the spec's scenario 3 (root `2.0.0`, `x` at
`2.0.0` already in the registry, `y` at `1.9.0`), the skip path of
`publishPackage` returns `true`, so `publishedCount` ends at `1`, not `0`:
the final summary is `Successfully published 1 package(s)`. -/
theorem publish_scenario_counts_skipped_as_published :
    (publishCommand { name := "mono" }
        { view := [("@mono/x", "2.0.0")], publishOk := fun _ => false }
        ⟨"mono", "2.0.0", [], [], []⟩
        [⟨"@mono/x", "2.0.0", [], [], []⟩,
         ⟨"@mono/y", "1.9.0", [], [], []⟩]).publishedCount = 1 ∧
    (1 : Nat) ≠ 0 := by
  constructor
  · decide
  · decide

/-- C2 amended: in scenario 3, `x` is skipped as already published and `y`
is skipped for its version mismatch, there is no error and the exit code is
`0`, but the skipped `x` is counted as a success: the final summary reports
one package published, not zero. -/
theorem publish_scenario_summary :
    publishCommand { name := "mono" }
        { view := [("@mono/x", "2.0.0")], publishOk := fun _ => false }
        ⟨"mono", "2.0.0", [], [], []⟩
        [⟨"@mono/x", "2.0.0", [], [], []⟩,
         ⟨"@mono/y", "1.9.0", [], [], []⟩] =
      ⟨1,
       [⟨Level.info, "[@mono/x] Version 2.0.0 already published, skipping"⟩,
        ⟨Level.info,
          "[@mono/y] Skipping (version 1.9.0 differs from root version 2.0.0)"⟩,
        ⟨Level.success, "Successfully published 1 package(s)"⟩],
       0⟩ := by
  decide

/-! ## C3: a dependent package's own version is bumped too -/

/-- C3 counterexample: in the spec's scenario 1 (`A` with no dependencies,
`B` depending on `A`, patch bump targeted at `A` from `1.0.0`), the
dependent `B` is pulled into `packagesToUpdate` by
`collectDependentPackages` and the update pass sets **its own** version to
the target as well: `B` ends at `1.0.1`, not `1.0.0`. -/
theorem version_bump_mutates_dependent_version :
    ((versionCommand { name := "mono", package := some "A" }
        ⟨"mono", "1.0.0", [], [], []⟩
        [⟨"@mono/A", "1.0.0", [], [], []⟩,
         ⟨"@mono/B", "1.0.0", [("@mono/A", "^1.0.0")], [], []⟩]
        "patch").workspace.map (fun p => (p.name, p.version, p.dependencies)))
      = [("mono", "1.0.0", []),
         ("@mono/A", "1.0.1", []),
         ("@mono/B", "1.0.1", [("@mono/A", "^1.0.1")])] ∧
    ("1.0.1" : String) ≠ "1.0.0" := by
  constructor
  · decide
  · decide

/-- C3 amended: the bump rewrites `A` to `1.0.1` and `B`'s range on `A`
from `^1.0.0` to `^1.0.1` as claimed, but `B`, being a collected dependent,
is also version-bumped to the target `1.0.1` (the root, not a dependent of
`A`, keeps its version field; it is only read for computing the target). -/
theorem version_bump_scenario_full :
    versionCommand { name := "mono", package := some "A" }
        ⟨"mono", "1.0.0", [], [], []⟩
        [⟨"@mono/A", "1.0.0", [], [], []⟩,
         ⟨"@mono/B", "1.0.0", [("@mono/A", "^1.0.0")], [], []⟩]
        "patch" =
      ⟨[⟨"mono", "1.0.0", [], [], []⟩,
        ⟨"@mono/A", "1.0.1", [], [], []⟩,
        ⟨"@mono/B", "1.0.1", [("@mono/A", "^1.0.1")], [], []⟩],
       [⟨Level.success, "[@mono/A] Updated to version 1.0.1"⟩,
        ⟨Level.success, "[@mono/B] Updated to version 1.0.1"⟩,
        ⟨Level.success,
          "[@mono/B] Updated dependency @mono/A to version 1.0.1"⟩],
       0⟩ := by
  decide

/-! ## C5 counterexample: `parseInt`-based identifier comparison deviates
from semver precedence -/

/-- C5 counterexample: on identifiers that start with a digit but contain
letters, and on identifiers starting with `-`, `compareVersions` follows
JavaScript `parseInt` and deviates from the claimed lexicographic /
numeric-below-alphanumeric precedence: `1.0.0-1a` and `1.0.0-1b` (distinct
valid versions) compare equal instead of `<`, and `1.0.0-2` compares above
`1.0.0-1a` while semver precedence puts the numeric identifier lower. -/
theorem compareVersions_not_lex_on_digit_initial :
    parseVersion "1.0.0-1a" = some ⟨1, 0, 0, "1a", ""⟩ ∧
    parseVersion "1.0.0-1b" = some ⟨1, 0, 0, "1b", ""⟩ ∧
    compareVersions "1.0.0-1a" "1.0.0-1b" = 0 ∧
    specCompareVersions ⟨1, 0, 0, "1a", ""⟩ ⟨1, 0, 0, "1b", ""⟩ = -1 ∧
    compareVersions "1.0.0-2" "1.0.0-1a" = 1 ∧
    specCompareVersions ⟨1, 0, 0, "2", ""⟩ ⟨1, 0, 0, "1a", ""⟩ = -1 ∧
    compareVersions "1.0.0-5" "1.0.0--a" = 1 ∧
    specCompareVersions ⟨1, 0, 0, "5", ""⟩ ⟨1, 0, 0, "-a", ""⟩ = -1 := by
  decide

/-! ## C6: the bump-computation table -/

/-- C6: the bump computation satisfies the spec's table. `patch` keeps the
`major.minor.patch` triple and drops the prerelease when one is present,
otherwise increments patch. `pre` on a prerelease matching the tag (a
prefix match, as the source tests `startsWith`) increments the trailing
numeric segment, or appends `.0` when the trailing segment is non-numeric;
on a prerelease with a different tag it resets to `tag.0` under the current
patch; on a non-prerelease version it bumps patch and starts `tag.0`. The
default tag is `alpha` (any empty/absent tag option falls back to it, JS
`||`), and build metadata present on the current version is reappended
verbatim in every case. -/
theorem calculateTargetVersion_table (v : Version) (tagOpt : Option String) :
    (v.prerelease ≠ "" →
      calculateTargetVersion "patch" v tagOpt =
        (if v.build = "" then triple v.major v.minor v.patch
         else triple v.major v.minor v.patch ++ "+" ++ v.build)) ∧
    (v.prerelease = "" →
      calculateTargetVersion "patch" v tagOpt =
        (if v.build = "" then triple v.major v.minor (v.patch + 1)
         else triple v.major v.minor (v.patch + 1) ++ "+" ++ v.build)) ∧
    (v.prerelease ≠ "" →
      strStartsWith v.prerelease (jsOrElse tagOpt "alpha") = true →
      isNumericIdent ((splitDots v.prerelease).getLastD "") = true →
      calculateTargetVersion "pre" v tagOpt =
        (if v.build = "" then
          triple v.major v.minor v.patch ++ "-" ++
            joinDots ((splitDots v.prerelease).dropLast ++
              [toString (digitsToNat
                ((splitDots v.prerelease).getLastD "").toList + 1)])
         else
          triple v.major v.minor v.patch ++ "-" ++
            joinDots ((splitDots v.prerelease).dropLast ++
              [toString (digitsToNat
                ((splitDots v.prerelease).getLastD "").toList + 1)]) ++
            "+" ++ v.build)) ∧
    (v.prerelease ≠ "" →
      strStartsWith v.prerelease (jsOrElse tagOpt "alpha") = true →
      isNumericIdent ((splitDots v.prerelease).getLastD "") = false →
      calculateTargetVersion "pre" v tagOpt =
        (if v.build = "" then
          triple v.major v.minor v.patch ++ "-" ++ (v.prerelease ++ ".0")
         else
          triple v.major v.minor v.patch ++ "-" ++ (v.prerelease ++ ".0") ++
            "+" ++ v.build)) ∧
    (v.prerelease ≠ "" →
      strStartsWith v.prerelease (jsOrElse tagOpt "alpha") = false →
      calculateTargetVersion "pre" v tagOpt =
        (if v.build = "" then
          triple v.major v.minor v.patch ++ "-" ++
            (jsOrElse tagOpt "alpha" ++ ".0")
         else
          triple v.major v.minor v.patch ++ "-" ++
            (jsOrElse tagOpt "alpha" ++ ".0") ++ "+" ++ v.build)) ∧
    (v.prerelease = "" →
      calculateTargetVersion "pre" v tagOpt =
        (if v.build = "" then
          triple v.major v.minor (v.patch + 1) ++ "-" ++
            jsOrElse tagOpt "alpha" ++ ".0"
         else
          triple v.major v.minor (v.patch + 1) ++ "-" ++
            jsOrElse tagOpt "alpha" ++ ".0" ++ "+" ++ v.build)) ∧
    jsOrElse none "alpha" = "alpha" := by
  refine ⟨?_, ?_, ?_, ?_, ?_, ?_, rfl⟩
  · intro h
    unfold calculateTargetVersion
    simp [h]
  · intro h
    unfold calculateTargetVersion
    simp [h]
  · intro h h1 h2
    have h2' : (!((splitDots v.prerelease).getLastD "").toList.isEmpty &&
        ((splitDots v.prerelease).getLastD "").toList.all isDigitChar) =
        true := h2
    unfold calculateTargetVersion incrementPrerelease
    simp only [h2']
    simp [h, h1]
  · intro h h1 h2
    have h2' : (!((splitDots v.prerelease).getLastD "").toList.isEmpty &&
        ((splitDots v.prerelease).getLastD "").toList.all isDigitChar) =
        false := h2
    unfold calculateTargetVersion incrementPrerelease
    simp only [h2']
    simp [h, h1, joinDots_splitDots_push_zero]
  · intro h h1
    unfold calculateTargetVersion incrementPrerelease
    simp [h, h1]
  · intro h
    unfold calculateTargetVersion
    simp [h]

/-- Witness for C6: `pre` on `1.2.3-alpha.7+sha` with tag `alpha` yields
`1.2.3-alpha.8+sha`, and `patch` on it yields `1.2.3+sha`. -/
theorem calculateTargetVersion_table_witness :
    calculateTargetVersion "pre" ⟨1, 2, 3, "alpha.7", "sha"⟩ (some "alpha") =
      "1.2.3-alpha.8+sha" ∧
    calculateTargetVersion "patch" ⟨1, 2, 3, "alpha.7", "sha"⟩
      (some "alpha") = "1.2.3+sha" := by
  have h1 := (calculateTargetVersion_table ⟨1, 2, 3, "alpha.7", "sha"⟩
    (some "alpha")).2.2.1 (by decide) (by decide) (by decide)
  have h2 := (calculateTargetVersion_table ⟨1, 2, 3, "alpha.7", "sha"⟩
    (some "alpha")).1 (by decide)
  rw [h1, h2]
  constructor <;> decide

/-! ## C5 amended: agreement with semver precedence on good identifiers -/

theorem takeWhile_of_all {p : Char → Bool} (l : List Char)
    (h : l.all p = true) : l.takeWhile p = l := by
  induction l with
  | nil => rfl
  | cons c rest ih =>
    simp only [List.all_cons, Bool.and_eq_true] at h
    simp [List.takeWhile, h.1, ih h.2]

theorem isNumericIdent_not_letterInitial (s : String)
    (h : isNumericIdent s = true) : isLetterInitial s = false := by
  unfold isNumericIdent at h
  unfold isLetterInitial
  cases hs : s.toList with
  | nil => rfl
  | cons c rest =>
    rw [hs] at h
    simp only [Bool.and_eq_true, List.all_cons] at h
    have hc := h.2.1
    unfold isDigitChar at hc
    unfold isAsciiLetter
    simp only [Bool.and_eq_true, decide_eq_true_eq] at hc
    simp only [Bool.or_eq_false_iff, Bool.and_eq_false_iff]
    constructor
    · left; simp only [decide_eq_false_iff_not]; omega
    · left; simp only [decide_eq_false_iff_not]; omega

theorem jsParseInt_of_numeric (s : String) (h : isNumericIdent s = true) :
    jsParseInt s = some ((digitsToNat s.toList : Nat) : Int) := by
  unfold isNumericIdent at h
  unfold jsParseInt
  cases hs : s.toList with
  | nil => rw [hs] at h; simp at h
  | cons c rest =>
    rw [hs] at h
    simp only [Bool.and_eq_true, List.all_cons] at h
    have hc : isDigitChar c = true := h.2.1
    have hminus : ¬(c = '-') := by
      intro he; subst he; simp [isDigitChar] at hc
    have hplus : ¬(c = '+') := by
      intro he; subst he; simp [isDigitChar] at hc
    have hall : (c :: rest).all isDigitChar = true := by
      simp [List.all_cons, hc, h.2.2]
    simp only [if_neg hminus, if_neg hplus, leadDigits,
      takeWhile_of_all _ hall]
    simp

theorem jsParseInt_of_letterInitial (s : String)
    (h : isLetterInitial s = true) : jsParseInt s = none := by
  unfold isLetterInitial at h
  unfold jsParseInt
  cases hs : s.toList with
  | nil => rfl
  | cons c rest =>
    rw [hs] at h
    have hc : isAsciiLetter c = true := h
    unfold isAsciiLetter at hc
    simp only [Bool.or_eq_true, Bool.and_eq_true, decide_eq_true_eq] at hc
    have hminus : ¬(c = '-') := by
      intro he; subst he; revert hc; decide
    have hplus : ¬(c = '+') := by
      intro he; subst he; revert hc; decide
    have hdig : isDigitChar c = false := by
      unfold isDigitChar
      simp only [Bool.and_eq_false_iff]
      rcases hc with ⟨h1, _⟩ | ⟨h1, _⟩
      · right; simp only [decide_eq_false_iff_not]; omega
      · right; simp only [decide_eq_false_iff_not]; omega
    simp [if_neg hminus, if_neg hplus, leadDigits, List.takeWhile, hdig]

theorem charListLt_digit_letter {a b : String}
    (ha : isNumericIdent a = true) (hb : isLetterInitial b = true) :
    jsStrLt a b = true ∧ jsStrLt b a = false := by
  unfold isNumericIdent at ha
  unfold isLetterInitial at hb
  unfold jsStrLt
  cases hsa : a.toList with
  | nil => rw [hsa] at ha; simp at ha
  | cons c rest =>
    cases hsb : b.toList with
    | nil => rw [hsb] at hb; simp at hb
    | cons d rest2 =>
      rw [hsa] at ha; rw [hsb] at hb
      simp only [Bool.and_eq_true, List.all_cons] at ha
      have hc : isDigitChar c = true := ha.2.1
      have hd : isAsciiLetter d = true := hb
      unfold isDigitChar at hc
      unfold isAsciiLetter at hd
      simp only [Bool.and_eq_true, decide_eq_true_eq] at hc
      simp only [Bool.or_eq_true, Bool.and_eq_true, decide_eq_true_eq] at hd
      have hlt : c.toNat < d.toNat := by
        rcases hd with ⟨h1, _⟩ | ⟨h1, _⟩ <;> omega
      constructor
      · unfold charListLt
        simp [hlt]
      · unfold charListLt
        have : ¬(d.toNat < c.toNat) := by omega
        simp [this, hlt]

theorem isLetterInitial_not_numeric (s : String)
    (h : isLetterInitial s = true) : isNumericIdent s = false := by
  unfold isLetterInitial at h
  unfold isNumericIdent
  cases hs : s.toList with
  | nil => rfl
  | cons c rest =>
    rw [hs] at h
    have hc : isAsciiLetter c = true := h
    have hdig : isDigitChar c = false := by
      unfold isAsciiLetter at hc
      unfold isDigitChar
      simp only [Bool.or_eq_true, Bool.and_eq_true, decide_eq_true_eq] at hc
      simp only [Bool.and_eq_false_iff]
      rcases hc with ⟨h1, _⟩ | ⟨h1, _⟩
      · right; simp only [decide_eq_false_iff_not]; omega
      · right; simp only [decide_eq_false_iff_not]; omega
    simp [List.all_cons, hdig]

/-- On good identifier lists, the code's `parseInt`-based loop computes
exactly the spec-side semver precedence. -/
theorem comparePreLists_eq_spec : ∀ (l1 l2 : List String),
    l1.all goodIdent = true → l2.all goodIdent = true →
    comparePreLists l1 l2 = specComparePre l1 l2
  | [], [], _, _ => rfl
  | [], _ :: _, _, _ => rfl
  | _ :: _, [], _, _ => rfl
  | a :: as, b :: bs, h1, h2 => by
    simp only [List.all_cons, Bool.and_eq_true] at h1 h2
    have ha := h1.1
    have hb := h2.1
    have ih := comparePreLists_eq_spec as bs h1.2 h2.2
    unfold goodIdent at ha hb
    simp only [Bool.or_eq_true] at ha hb
    rcases ha with ha | ha <;> rcases hb with hb | hb
    · -- both numeric
      rw [comparePreLists, jsParseInt_of_numeric a ha,
        jsParseInt_of_numeric b hb]
      rw [specComparePre]
      simp [ha, hb, ih]
    · -- a numeric, b letter-initial
      rw [comparePreLists, jsParseInt_of_numeric a ha,
        jsParseInt_of_letterInitial b hb]
      rw [specComparePre]
      have hlt := charListLt_digit_letter ha hb
      have hbn := isLetterInitial_not_numeric b hb
      simp [ha, hbn, hlt.1]
    · -- a letter-initial, b numeric
      rw [comparePreLists, jsParseInt_of_letterInitial a ha,
        jsParseInt_of_numeric b hb]
      rw [specComparePre]
      have hlt := charListLt_digit_letter hb ha
      have han := isLetterInitial_not_numeric a ha
      simp [hb, han, hlt.1, hlt.2]
    · -- both letter-initial
      rw [comparePreLists, jsParseInt_of_letterInitial a ha,
        jsParseInt_of_letterInitial b hb]
      rw [specComparePre]
      have han := isLetterInitial_not_numeric a ha
      have hbn := isLetterInitial_not_numeric b hb
      simp [han, hbn, jsStrLt, ih]

/-- C5 amended: on valid semver strings whose prerelease identifiers are
each purely numeric or letter-initial, `compareVersions` computes exactly
the spec-side semver precedence (numeric identifiers numerically, numeric
below alphanumeric, letter-initial identifiers lexicographically in ASCII
order, strict-prefix lists lesser, no-prerelease above prerelease), and the
spec's example chains hold. -/
theorem compareVersions_agrees_with_semver_on_good
    (s1 s2 : String) (v1 v2 : Version)
    (hp1 : parseVersion s1 = some v1) (hp2 : parseVersion s2 = some v2)
    (hg1 : goodPre v1.prerelease = true) (hg2 : goodPre v2.prerelease = true) :
    compareVersions s1 s2 = specCompareVersions v1 v2 ∧
    compareVersions "1.0.0" "1.0.1" < 0 ∧
    compareVersions "1.0.1" "1.1.0" < 0 ∧
    compareVersions "1.1.0" "2.0.0" < 0 ∧
    compareVersions "1.0.0-alpha.1" "1.0.0-alpha.2" < 0 ∧
    compareVersions "1.0.0-alpha.2" "1.0.0" < 0 ∧
    compareVersions "1.0.0-alpha" "1.0.0-alpha.1" < 0 := by
  refine ⟨?_, by decide, by decide, by decide, by decide, by decide,
    by decide⟩
  unfold compareVersions specCompareVersions
  rw [hp1, hp2]
  by_cases e1 : v1.prerelease = "" <;> by_cases e2 : v2.prerelease = ""
  · simp [e1, e2]
  · simp [e1, e2]
  · simp [e1, e2]
  · have hga : (splitDots v1.prerelease).all goodIdent = true := by
      unfold goodPre at hg1
      simp only [Bool.or_eq_true, decide_eq_true_eq] at hg1
      rcases hg1 with hg1 | hg1
      · exact absurd hg1 e1
      · exact hg1
    have hgb : (splitDots v2.prerelease).all goodIdent = true := by
      unfold goodPre at hg2
      simp only [Bool.or_eq_true, decide_eq_true_eq] at hg2
      rcases hg2 with hg2 | hg2
      · exact absurd hg2 e2
      · exact hg2
    simp [e1, e2, comparePreLists_eq_spec _ _ hga hgb]

/-- Witness for C5 amended at `1.0.0-alpha.1` vs `1.0.0-beta`. -/
theorem compareVersions_agrees_with_semver_on_good_witness :
    compareVersions "1.0.0-alpha.1" "1.0.0-beta" =
      specCompareVersions ⟨1, 0, 0, "alpha.1", ""⟩ ⟨1, 0, 0, "beta", ""⟩ ∧
    compareVersions "1.0.0-alpha.1" "1.0.0-beta" = -1 :=
  ⟨(compareVersions_agrees_with_semver_on_good
      "1.0.0-alpha.1" "1.0.0-beta"
      ⟨1, 0, 0, "alpha.1", ""⟩ ⟨1, 0, 0, "beta", ""⟩
      (by decide) (by decide) (by decide) (by decide)).1,
   by decide⟩

/-! ## Lookup and name-map lemmas -/

theorem lookupA_cons {α : Type} (a : String) (b : α)
    (rest : List (String × α)) (key : String) :
    lookupA ((a, b) :: rest) key =
      if a = key then some b else lookupA rest key := by
  unfold lookupA
  by_cases h : a = key <;> simp [List.find?_cons, h]

theorem lookupA_mapReplace_self {α : Type} (m : List (String × α))
    (k : String) (v : α) (h : (lookupA m k).isSome = true) :
    lookupA (m.map (fun e => if e.1 = k then (e.1, v) else e)) k = some v := by
  induction m with
  | nil => simp [lookupA] at h
  | cons e rest ih =>
    obtain ⟨a, b⟩ := e
    by_cases hak : a = k
    · subst hak
      simp [lookupA_cons]
    · rw [lookupA_cons, if_neg hak] at h
      simp only [List.map_cons, if_neg hak]
      rw [lookupA_cons, if_neg hak]
      exact ih h

theorem lookupA_mapReplace_ne {α : Type} (m : List (String × α))
    (k : String) (v : α) (d : String) (h : d ≠ k) :
    lookupA (m.map (fun e => if e.1 = k then (e.1, v) else e)) d =
      lookupA m d := by
  induction m with
  | nil => rfl
  | cons e rest ih =>
    obtain ⟨a, b⟩ := e
    by_cases hak : a = k
    · subst hak
      simp only [List.map_cons, if_pos rfl]
      rw [lookupA_cons, lookupA_cons, if_neg (fun he => h he.symm),
        if_neg (fun he => h he.symm)]
      exact ih
    · simp only [List.map_cons, if_neg hak]
      rw [lookupA_cons, lookupA_cons]
      by_cases had : a = d <;> simp [had, ih]

theorem lookupA_append_singleton_ne {α : Type} (m : List (String × α))
    (k : String) (v : α) (d : String) (h : d ≠ k) :
    lookupA (m ++ [(k, v)]) d = lookupA m d := by
  induction m with
  | nil =>
    rw [List.nil_append, lookupA_cons, if_neg (fun he => h (Eq.symm he))]
  | cons e rest ih =>
    obtain ⟨a, b⟩ := e
    rw [List.cons_append, lookupA_cons, lookupA_cons]
    by_cases had : a = d <;> simp [had, ih]

theorem lookupA_setA_self {α : Type} (m : List (String × α)) (k : String)
    (v : α) : lookupA (setA m k v) k = some v := by
  unfold setA
  split_ifs with hs
  · exact lookupA_mapReplace_self m k v hs
  · induction m with
    | nil => simp [lookupA_cons, lookupA]
    | cons e rest ih =>
      obtain ⟨a, b⟩ := e
      rw [lookupA_cons] at hs
      rw [List.cons_append, lookupA_cons]
      by_cases hak : a = k
      · simp [hak] at hs
      · rw [if_neg hak]
        rw [if_neg hak] at hs
        exact ih hs

theorem lookupA_setA_ne {α : Type} (m : List (String × α)) (k : String)
    (v : α) (d : String) (h : d ≠ k) :
    lookupA (setA m k v) d = lookupA m d := by
  unfold setA
  split_ifs with hs
  · exact lookupA_mapReplace_ne m k v d h
  · exact lookupA_append_singleton_ne m k v d h

theorem lookupA_nameMapFold_not_mem (scope : String) (l : List Pkg) :
    ∀ (m : List (String × String)) (d : String),
    d ∉ l.map (fun p => stripScope scope p.name) →
    lookupA (nameMapFold scope m l) d = lookupA m d := by
  induction l with
  | nil => intro m d _; rfl
  | cons p rest ih =>
    intro m d h
    simp only [List.map_cons, List.mem_cons, not_or] at h
    show lookupA (nameMapFold scope (setA m (stripScope scope p.name) p.name)
      rest) d = lookupA m d
    rw [ih _ d h.2, lookupA_setA_ne _ _ _ _ h.1]

theorem lookupA_nameMapFold_mem (scope : String) (l : List Pkg) :
    ∀ (m : List (String × String)) (q : Pkg),
    (l.map (fun p => stripScope scope p.name)).Nodup → q ∈ l →
    lookupA (nameMapFold scope m l) (stripScope scope q.name) =
      some q.name := by
  induction l with
  | nil => intro m q _ hq; simp at hq
  | cons p rest ih =>
    intro m q hnd hq
    simp only [List.map_cons, List.nodup_cons] at hnd
    rcases List.mem_cons.mp hq with hq | hq
    · subst hq
      show lookupA (nameMapFold scope
        (setA m (stripScope scope q.name) q.name) rest)
        (stripScope scope q.name) = some q.name
      rw [lookupA_nameMapFold_not_mem scope rest _ _ hnd.1,
        lookupA_setA_self]
    · exact ih _ q hnd.2 hq

/-! ## C9: an edge is recorded only when the dependency precedes
the package in the sorted order -/

/-- The graph entry `buildAll` records for a package `P` is its internal
dependency list filtered through the name map of the packages up to and
including `P` itself. -/
theorem graphGo_lookup (scope : String) (allNames : List String) (P : Pkg) :
    ∀ (xs : List Pkg) (ys : List Pkg) (nmap : List (String × String)),
    stripScope scope P.name ∉
      xs.map (fun p => stripScope scope p.name) →
    lookupA (buildAllGraphGo scope allNames (xs ++ P :: ys) nmap)
        (stripScope scope P.name) =
      some ((internalShortDeps scope P).filter (fun d =>
        match lookupA (nameMapFold scope nmap (xs ++ [P])) d with
        | some full => allNames.contains full
        | none => false)) := by
  intro xs
  induction xs with
  | nil =>
    intro ys nmap _
    simp [buildAllGraphGo, lookupA_cons, nameMapFold]
  | cons x xs ih =>
    intro ys nmap h
    simp only [List.map_cons, List.mem_cons, not_or] at h
    rw [List.cons_append, buildAllGraphGo, lookupA_cons,
      if_neg (fun he => h.1 he.symm), ih ys _ h.2]
    rfl

/-- C9: in the single pass that builds `buildAll`'s scheduling graph, an
internal dependency edge from `P` to `D` survives only if `D`'s entry was
processed no later than `P`'s (the name-to-path map is populated during the
same pass that filters each package's dependencies): an edge to a package
appearing strictly later in the sorted order is silently dropped, an edge
to one appearing earlier (or to `P` itself) is kept, and the polling
guard's dispatch condition is insensitive to whether a later `D` is in the
built set — it does not wait on that dependency. -/
theorem buildAll_edge_recorded_iff_earlier (scope : String)
    (xs ys : List Pkg) (P D : Pkg)
    (hnd : ((xs ++ P :: ys).map (fun p => stripScope scope p.name)).Nodup) :
    (D ∈ ys →
      stripScope scope D.name ∉
        recordedDeps scope (xs ++ P :: ys) (stripScope scope P.name)) ∧
    ((D ∈ xs ∨ D = P) →
      stripScope scope D.name ∈ internalShortDeps scope P →
      stripScope scope D.name ∈
        recordedDeps scope (xs ++ P :: ys) (stripScope scope P.name)) ∧
    (D ∈ ys → ∀ (built : List String) (failed : Bool),
      canStart scope (xs ++ P :: ys) (stripScope scope P.name)
        (D.name :: built) failed =
      canStart scope (xs ++ P :: ys) (stripScope scope P.name)
        built failed) := by
  have hmap : (xs ++ P :: ys).map (fun p => stripScope scope p.name) =
      xs.map (fun p => stripScope scope p.name) ++
        stripScope scope P.name ::
          ys.map (fun p => stripScope scope p.name) := by simp
  have hnd2 := hnd
  rw [hmap, List.nodup_append] at hnd2
  obtain ⟨h1, h2, hdisj⟩ := hnd2
  have hPl1 : stripScope scope P.name ∉
      xs.map (fun p => stripScope scope p.name) := by
    intro hmem
    exact hdisj hmem (List.mem_cons_self _ _)
  have hPys : stripScope scope P.name ∉
      ys.map (fun p => stripScope scope p.name) :=
    (List.nodup_cons.mp h2).1
  have hrec : recordedDeps scope (xs ++ P :: ys)
      (stripScope scope P.name) =
      (internalShortDeps scope P).filter (fun d =>
        match lookupA (nameMapFold scope [] (xs ++ [P])) d with
        | some full => ((xs ++ P :: ys).map Pkg.name).contains full
        | none => false) := by
    unfold recordedDeps buildAllGraph
    rw [graphGo_lookup scope _ P xs ys [] hPl1]
    rfl
  have hkeys : ∀ d : String,
      d ∉ (xs ++ [P]).map (fun p => stripScope scope p.name) →
      lookupA (nameMapFold scope [] (xs ++ [P])) d = none := by
    intro d hd
    rw [lookupA_nameMapFold_not_mem scope _ [] d hd]
    rfl
  have hsD : D ∈ ys → stripScope scope D.name ∉
      (xs ++ [P]).map (fun p => stripScope scope p.name) := by
    intro hD hmem
    have hsDys : stripScope scope D.name ∈
        ys.map (fun p => stripScope scope p.name) :=
      List.mem_map_of_mem _ hD
    rw [List.map_append] at hmem
    rcases List.mem_append.mp hmem with hmem | hmem
    · exact hdisj hmem (List.mem_cons_of_mem _ hsDys)
    · simp only [List.map_cons, List.map_nil, List.mem_singleton] at hmem
      exact hPys (hmem ▸ hsDys)
  refine ⟨?_, ?_, ?_⟩
  · intro hD hmem
    rw [hrec] at hmem
    have hcond := (List.mem_filter.mp hmem).2
    rw [hkeys _ (hsD hD)] at hcond
    simp at hcond
  · intro hDx hdep
    rw [hrec]
    apply List.mem_filter.mpr
    refine ⟨hdep, ?_⟩
    have hDmem : D ∈ xs ++ [P] := by
      rcases hDx with hDx | hDx
      · exact List.mem_append_left _ hDx
      · exact List.mem_append_right _ (by simp [hDx])
    have hnodup2 :
        ((xs ++ [P]).map (fun p => stripScope scope p.name)).Nodup := by
      rw [List.map_append, List.nodup_append]
      refine ⟨h1, by simp, ?_⟩
      intro a ha hmem
      simp only [List.map_cons, List.map_nil, List.mem_singleton] at hmem
      subst hmem
      exact hPl1 ha
    rw [lookupA_nameMapFold_mem scope _ [] D hnodup2 hDmem]
    have hmemName : D.name ∈ (xs ++ P :: ys).map Pkg.name := by
      apply List.mem_map_of_mem
      rcases hDx with hDx | hDx
      · exact List.mem_append_left _ hDx
      · subst hDx
        exact List.mem_append_right _ (List.mem_cons_self _ _)
    show ((xs ++ P :: ys).map Pkg.name).contains D.name = true
    exact List.elem_eq_true_of_mem hmemName
  · intro hD built failed
    have hfilter : ∀ dep ∈ recordedDeps scope (xs ++ P :: ys)
        (stripScope scope P.name),
        ((lookupA (buildAllGraph scope (xs ++ P :: ys)).2 dep).getD "") ≠
          D.name := by
      intro dep hdep
      rw [hrec] at hdep
      have hcond := (List.mem_filter.mp hdep).2
      by_cases hdmem :
          dep ∈ (xs ++ [P]).map (fun p => stripScope scope p.name)
      · obtain ⟨q, hq, hqs⟩ := List.mem_map.mp hdmem
        have hqsorted : q ∈ xs ++ P :: ys := by
          rcases List.mem_append.mp hq with hq | hq
          · exact List.mem_append_left _ hq
          · simp only [List.mem_singleton] at hq
            subst hq
            exact List.mem_append_right _ (List.mem_cons_self _ _)
        have hv : lookupA (buildAllGraph scope (xs ++ P :: ys)).2 dep =
            some q.name := by
          show lookupA (nameMapFold scope [] (xs ++ P :: ys)) dep =
            some q.name
          rw [← hqs]
          exact lookupA_nameMapFold_mem scope _ [] q hnd hqsorted
        rw [hv]
        intro he
        simp only [Option.getD_some] at he
        have hss : stripScope scope q.name = stripScope scope D.name := by
          rw [he]
        rw [hqs] at hss
        exact hsD hD (hss ▸ hdmem)
      · rw [hkeys dep hdmem] at hcond
        simp at hcond
    unfold canStart
    have hfe : (recordedDeps scope (xs ++ P :: ys)
        (stripScope scope P.name)).filter (fun dep =>
          !(D.name :: built).contains
            ((lookupA (buildAllGraph scope (xs ++ P :: ys)).2 dep).getD "")) =
        (recordedDeps scope (xs ++ P :: ys)
          (stripScope scope P.name)).filter (fun dep =>
          !built.contains
            ((lookupA (buildAllGraph scope (xs ++ P :: ys)).2 dep).getD "")) := by
      apply List.filter_congr
      intro dep hdep
      have hne := hfilter dep hdep
      simp [List.contains_cons, hne]
    rw [hfe]

/-- Witness for C9 on the four-package workspace sorted as `a, b, d, c`:
`d`'s edge to the later `c` is dropped, `b`'s edge to the earlier `a` is
kept, and `d`'s dispatch condition ignores whether `c` was built. -/
theorem buildAll_edge_recorded_iff_earlier_witness :
    stripScope "m" "@m/c" ∉
      recordedDeps "m"
        ([⟨"@m/a", "1.0.0", [], [], []⟩,
          ⟨"@m/b", "1.0.0", [("@m/a", "^1.0.0")], [], []⟩] ++
          ⟨"@m/d", "1.0.0", [("@m/c", "^1.0.0")], [], []⟩ ::
          [⟨"@m/c", "1.0.0", [("@m/a", "^1.0.0"), ("@m/b", "^1.0.0")], [],
            []⟩])
        (stripScope "m" "@m/d") ∧
    stripScope "m" "@m/a" ∈
      recordedDeps "m"
        ([⟨"@m/a", "1.0.0", [], [], []⟩] ++
          ⟨"@m/b", "1.0.0", [("@m/a", "^1.0.0")], [], []⟩ ::
          [⟨"@m/d", "1.0.0", [("@m/c", "^1.0.0")], [], []⟩,
           ⟨"@m/c", "1.0.0", [("@m/a", "^1.0.0"), ("@m/b", "^1.0.0")], [],
             []⟩])
        (stripScope "m" "@m/b") ∧
    canStart "m"
        ([⟨"@m/a", "1.0.0", [], [], []⟩,
          ⟨"@m/b", "1.0.0", [("@m/a", "^1.0.0")], [], []⟩] ++
          ⟨"@m/d", "1.0.0", [("@m/c", "^1.0.0")], [], []⟩ ::
          [⟨"@m/c", "1.0.0", [("@m/a", "^1.0.0"), ("@m/b", "^1.0.0")], [],
            []⟩])
        (stripScope "m" "@m/d") ["@m/c"] false =
      canStart "m"
        ([⟨"@m/a", "1.0.0", [], [], []⟩,
          ⟨"@m/b", "1.0.0", [("@m/a", "^1.0.0")], [], []⟩] ++
          ⟨"@m/d", "1.0.0", [("@m/c", "^1.0.0")], [], []⟩ ::
          [⟨"@m/c", "1.0.0", [("@m/a", "^1.0.0"), ("@m/b", "^1.0.0")], [],
            []⟩])
        (stripScope "m" "@m/d") [] false :=
  ⟨(buildAll_edge_recorded_iff_earlier "m"
      [⟨"@m/a", "1.0.0", [], [], []⟩,
       ⟨"@m/b", "1.0.0", [("@m/a", "^1.0.0")], [], []⟩]
      [⟨"@m/c", "1.0.0", [("@m/a", "^1.0.0"), ("@m/b", "^1.0.0")], [], []⟩]
      ⟨"@m/d", "1.0.0", [("@m/c", "^1.0.0")], [], []⟩
      ⟨"@m/c", "1.0.0", [("@m/a", "^1.0.0"), ("@m/b", "^1.0.0")], [], []⟩
      (by decide)).1 (by decide),
   (buildAll_edge_recorded_iff_earlier "m"
      [⟨"@m/a", "1.0.0", [], [], []⟩]
      [⟨"@m/d", "1.0.0", [("@m/c", "^1.0.0")], [], []⟩,
       ⟨"@m/c", "1.0.0", [("@m/a", "^1.0.0"), ("@m/b", "^1.0.0")], [], []⟩]
      ⟨"@m/b", "1.0.0", [("@m/a", "^1.0.0")], [], []⟩
      ⟨"@m/a", "1.0.0", [], [], []⟩
      (by decide)).2.1 (by decide) (by decide),
   (buildAll_edge_recorded_iff_earlier "m"
      [⟨"@m/a", "1.0.0", [], [], []⟩,
       ⟨"@m/b", "1.0.0", [("@m/a", "^1.0.0")], [], []⟩]
      [⟨"@m/c", "1.0.0", [("@m/a", "^1.0.0"), ("@m/b", "^1.0.0")], [], []⟩]
      ⟨"@m/d", "1.0.0", [("@m/c", "^1.0.0")], [], []⟩
      ⟨"@m/c", "1.0.0", [("@m/a", "^1.0.0"), ("@m/b", "^1.0.0")], [], []⟩
      (by decide)).2.2 (by decide) [] false⟩

/-! ## C4: a dependency cycle aborts before any build -/

theorem stExt_refl (st : DState) : stExt st st :=
  ⟨fun _ h => h, fun _ _ h => h⟩

theorem stExt_trans {a b c : DState} (h1 : stExt a b) (h2 : stExt b c) :
    stExt a c :=
  ⟨fun n h => h2.1 n (h1.1 n h), fun n k h => h2.2 n k (h1.2 n k h)⟩

theorem lookupA_eq_none_iff {α : Type} (l : List (String × α)) (k : String) :
    lookupA l k = none ↔ k ∉ l.map Prod.fst := by
  induction l with
  | nil => simp [lookupA]
  | cons e rest ih =>
    obtain ⟨a, b⟩ := e
    rw [lookupA_cons]
    by_cases hak : a = k
    · subst hak
      simp
    · rw [if_neg hak, ih]
      constructor
      · intro h
        simp only [List.map_cons, List.mem_cons, not_or]
        exact ⟨fun he => hak he.symm, h⟩
      · intro h
        simp only [List.map_cons, List.mem_cons, not_or] at h
        exact h.2

theorem lookupA_isSome_iff {α : Type} (l : List (String × α)) (k : String) :
    (lookupA l k).isSome = true ↔ k ∈ l.map Prod.fst := by
  constructor
  · intro hs
    by_contra hmem
    rw [← lookupA_eq_none_iff] at hmem
    rw [hmem] at hs
    simp at hs
  · intro hmem
    cases hl : lookupA l k with
    | none => exact absurd hmem (fun _ => (lookupA_eq_none_iff l k).mp hl hmem)
    | some v => rfl

theorem nodup_subset_length {l keys : List String} (hnd : l.Nodup)
    (hsub : ∀ t ∈ l, t ∈ keys) : l.length ≤ keys.length := by
  have h1 : l.toFinset.card = l.length := List.toFinset_card_of_nodup hnd
  have h2 : l.toFinset ⊆ keys.toFinset := by
    intro a ha
    rw [List.mem_toFinset] at ha
    rw [List.mem_toFinset]
    exact hsub a ha
  have h3 := Finset.card_le_card h2
  have h4 := keys.toFinset_card_le
  omega

theorem oneSpec_zero (g : List (String × List String)) : oneSpec g 0 := by
  intro temp st name hnd hsub hfuel _ _
  exfalso
  have := nodup_subset_length hnd hsub
  omega

theorem foldSpec_of_oneSpec (g : List (String × List String)) (fuel : Nat)
    (hone : oneSpec g fuel) : foldSpec g fuel := by
  intro temp hnd hsub hfuel names
  induction names with
  | nil =>
    intro st hgood htv
    constructor
    · intro e he
      simp [depthFold] at he
    · intro d st' hok
      simp only [depthFold, Except.ok.injEq, Prod.mk.injEq] at hok
      obtain ⟨_, hst⟩ := hok
      subst hst
      exact ⟨stExt_refl st, hgood, htv, by simp⟩
  | cons n rest ih =>
    intro st hgood htv
    cases hcall : calcDepthOne g fuel temp st n with
    | error e =>
      constructor
      · intro e' he'
        simp only [depthFold, hcall] at he'
        cases he'
        exact (hone temp st n hnd hsub hfuel hgood htv).1 e hcall
      · intro d st' hok
        simp [depthFold, hcall] at hok
    | ok val =>
      obtain ⟨dn, st1⟩ := val
      obtain ⟨hext1, hgood1, htv1, hname⟩ :=
        (hone temp st n hnd hsub hfuel hgood htv).2 dn st1 hcall
      have hrest := ih st1 hgood1 htv1
      constructor
      · intro e he
        simp only [depthFold, hcall] at he
        cases hrest2 : depthFold (fun st2 d => calcDepthOne g fuel temp st2 d)
            st1 rest with
        | error e2 =>
          rw [hrest2] at he
          rw [Except.error.injEq] at he
          subst he
          exact hrest.1 _ hrest2
        | ok v2 =>
          obtain ⟨d2, st2⟩ := v2
          rw [hrest2] at he
          cases he
      · intro d st' hok
        simp only [depthFold, hcall] at hok
        cases hrest2 : depthFold (fun st2 d => calcDepthOne g fuel temp st2 d)
            st1 rest with
        | error e2 =>
          rw [hrest2] at hok
          cases hok
        | ok v2 =>
          obtain ⟨d2, st2⟩ := v2
          rw [hrest2] at hok
          rw [Except.ok.injEq, Prod.mk.injEq] at hok
          obtain ⟨hd, hst⟩ := hok
          subst hd
          subst hst
          obtain ⟨hext2, hgood2, htv2, hnames2⟩ := hrest.2 d2 st2 hrest2
          refine ⟨stExt_trans hext1 hext2, hgood2, htv2, ?_⟩
          intro m hm hkey
          rcases List.mem_cons.mp hm with hm | hm
          · subst hm
            obtain ⟨hvis, k, hk, hlk⟩ := hname hkey
            exact ⟨hext2.1 _ hvis, k, le_trans hk (le_max_left _ _),
              hext2.2 _ _ hlk⟩
          · obtain ⟨hvis, k, hk, hlk⟩ := hnames2 m hm hkey
            exact ⟨hvis, k, le_trans hk (le_max_right _ _), hlk⟩

theorem oneSpec_succ (g : List (String × List String))
    (hg : lookupA g "" = none) (fuel : Nat)
    (hfold : foldSpec g fuel) : oneSpec g (fuel + 1) := by
  intro temp st name hnd hsub hfuel hgood htv
  by_cases hb1 : (name = "" || !(lookupA g name).isSome) = true
  · constructor
    · intro e he
      simp only [calcDepthOne, if_pos hb1] at he
      exact Except.noConfusion he
    · intro d st' hok
      simp only [calcDepthOne, if_pos hb1, Except.ok.injEq,
        Prod.mk.injEq] at hok
      obtain ⟨_, hst⟩ := hok
      subst hst
      refine ⟨stExt_refl st, hgood, htv, ?_⟩
      intro hkeyx
      exfalso
      rw [hkeyx] at hb1
      simp at hb1
      subst hb1
      rw [hg] at hkeyx
      simp at hkeyx
  · by_cases hb2 : name ∈ temp
    · constructor
      · intro e he
        simp only [calcDepthOne, if_neg hb1, if_pos hb2,
          Except.error.injEq] at he
        subst he
        exact ⟨name, hsub name hb2, rfl⟩
      · intro d st' hok
        simp only [calcDepthOne, if_neg hb1, if_pos hb2] at hok
        exact Except.noConfusion hok
    · by_cases hb3 : name ∈ st.visited
      · constructor
        · intro e he
          simp only [calcDepthOne, if_neg hb1, if_neg hb2,
            if_pos hb3] at he
          exact Except.noConfusion he
        · intro d st' hok
          simp only [calcDepthOne, if_neg hb1, if_neg hb2, if_pos hb3,
            Except.ok.injEq, Prod.mk.injEq] at hok
          obtain ⟨hd, hst⟩ := hok
          subst hst
          refine ⟨stExt_refl st, hgood, htv, ?_⟩
          intro _
          obtain ⟨k, hk, _⟩ := hgood.2 name hb3
          refine ⟨hb3, k, ?_, hk⟩
          rw [← hd, hk]
          simp
      · have hkey : (lookupA g name).isSome = true := by
          cases h : (lookupA g name).isSome
          · exfalso
            apply hb1
            rw [h]
            simp
          · rfl
        have hnd' : (name :: temp).Nodup := List.nodup_cons.mpr ⟨hb2, hnd⟩
        have hsub' : ∀ t ∈ name :: temp, t ∈ keyList g := by
          intro t ht
          rcases List.mem_cons.mp ht with ht | ht
          · subst ht
            exact (lookupA_isSome_iff g t).mp hkey
          · exact hsub t ht
        have hfuel' : (keyList g).length + 1 ≤ fuel + (name :: temp).length := by
          simp only [List.length_cons]
          omega
        have htv' : ∀ t ∈ name :: temp, t ∉ st.visited := by
          intro t ht
          rcases List.mem_cons.mp ht with ht | ht
          · subst ht
            exact hb3
          · exact htv t ht
        have hf := hfold (name :: temp) hnd' hsub' hfuel'
          (((lookupA g name).getD []).filter (fun d => (lookupA g d).isSome))
          st hgood htv'
        constructor
        · intro e he
          simp only [calcDepthOne, if_neg hb1, if_neg hb2, if_neg hb3] at he
          cases hfo : depthFold
              (fun st2 d => calcDepthOne g fuel (name :: temp) st2 d) st
              (((lookupA g name).getD []).filter
                (fun d => (lookupA g d).isSome)) with
          | error e2 =>
            rw [hfo] at he
            rw [Except.error.injEq] at he
            subst he
            exact hf.1 _ hfo
          | ok v =>
            obtain ⟨maxD, st1⟩ := v
            rw [hfo] at he
            cases he
        · intro d st' hok
          simp only [calcDepthOne, if_neg hb1, if_neg hb2, if_neg hb3] at hok
          cases hfo : depthFold
              (fun st2 d => calcDepthOne g fuel (name :: temp) st2 d) st
              (((lookupA g name).getD []).filter
                (fun d => (lookupA g d).isSome)) with
          | error e2 =>
            rw [hfo] at hok
            cases hok
          | ok v =>
            obtain ⟨maxD, st1⟩ := v
            rw [hfo] at hok
            rw [Except.ok.injEq, Prod.mk.injEq] at hok
            obtain ⟨hd, hst⟩ := hok
            subst hd
            subst hst
            obtain ⟨hext1, hgood1, htv1, hdeps⟩ := hf.2 maxD st1 hfo
            have hnv1 : name ∉ st1.visited :=
              htv1 name (List.mem_cons_self _ _)
            have hnd1 : lookupA st1.depth name = none := by
              cases h : lookupA st1.depth name with
              | none => rfl
              | some k =>
                exact absurd ((hgood1.1 name).mpr (by rw [h]; rfl)) hnv1
            have hextnew : stExt st
                ⟨name :: st1.visited, (name, maxD + 1) :: st1.depth⟩ := by
              refine ⟨?_, ?_⟩
              · intro n hn
                exact List.mem_cons_of_mem _ (hext1.1 n hn)
              · intro n k hk
                have hk1 := hext1.2 n k hk
                have hne : ¬ name = n := by
                  intro he
                  subst he
                  rw [hnd1] at hk1
                  cases hk1
                show lookupA ((name, maxD + 1) :: st1.depth) n = some k
                rw [lookupA_cons, if_neg hne]
                exact hk1
            refine ⟨hextnew, ⟨?_, ?_⟩, ?_, ?_⟩
            · intro n
              show n ∈ name :: st1.visited ↔ _
              rw [List.mem_cons]
              constructor
              · intro hn
                rcases hn with hn | hn
                · subst hn
                  show (lookupA ((n, maxD + 1) :: st1.depth) n).isSome = true
                  rw [lookupA_cons, if_pos rfl]
                  rfl
                · show (lookupA ((name, maxD + 1) :: st1.depth) n).isSome =
                    true
                  have hne : ¬ name = n := fun he => hnv1 (he ▸ hn)
                  rw [lookupA_cons, if_neg hne]
                  exact (hgood1.1 n).mp hn
              · intro hn
                by_cases hne : name = n
                · exact Or.inl hne.symm
                · right
                  rw [lookupA_cons, if_neg hne] at hn
                  exact (hgood1.1 n).mpr hn
            · intro n hn
              rcases List.mem_cons.mp hn with hn | hn
              · subst hn
                refine ⟨maxD + 1, ?_, ?_⟩
                · rw [lookupA_cons, if_pos rfl]
                · intro dd hdd hddkey
                  have hddf : dd ∈ ((lookupA g n).getD []).filter
                      (fun d => (lookupA g d).isSome) :=
                    List.mem_filter.mpr ⟨hdd, hddkey⟩
                  obtain ⟨hvis, k, hk, hlk⟩ := hdeps dd hddf hddkey
                  have hne : ¬ n = dd := fun he => hnv1 (he ▸ hvis)
                  refine ⟨k, ?_, by omega⟩
                  rw [lookupA_cons, if_neg hne]
                  exact hlk
              · obtain ⟨k, hk, hdd⟩ := hgood1.2 n hn
                have hne : ¬ name = n := fun he => hnv1 (he ▸ hn)
                refine ⟨k, ?_, ?_⟩
                · rw [lookupA_cons, if_neg hne]
                  exact hk
                · intro dd hddmem hddkey
                  obtain ⟨kd, hkd, hlt⟩ := hdd dd hddmem hddkey
                  have hdvis : dd ∈ st1.visited :=
                    (hgood1.1 dd).mpr (by rw [hkd]; rfl)
                  have hned : ¬ name = dd := fun he => hnv1 (he ▸ hdvis)
                  refine ⟨kd, ?_, hlt⟩
                  rw [lookupA_cons, if_neg hned]
                  exact hkd
            · intro t ht
              show t ∉ name :: st1.visited
              rw [List.mem_cons]
              push_neg
              exact ⟨fun he => hb2 (he ▸ ht),
                htv1 t (List.mem_cons_of_mem _ ht)⟩
            · intro _
              refine ⟨List.mem_cons_self _ _, maxD + 1, le_refl _, ?_⟩
              show lookupA ((name, maxD + 1) :: st1.depth) name = _
              rw [lookupA_cons, if_pos rfl]

theorem oneSpec_all (g : List (String × List String))
    (hg : lookupA g "" = none) : ∀ fuel, oneSpec g fuel := by
  intro fuel
  induction fuel with
  | zero => exact oneSpec_zero g
  | succ fuel ih =>
    exact oneSpec_succ g hg fuel (foldSpec_of_oneSpec g fuel ih)

/-- The `calculateDepth` loop over all keys either reports a circular
dependency naming a graph key, or succeeds with a well-formed depth
assignment covering every key. -/
theorem calcDepthAll_spec (g : List (String × List String))
    (hg : lookupA g "" = none) :
    (∀ e, calcDepthAll g = Except.error e →
      ∃ p, p ∈ keyList g ∧ e = circularMsg p) ∧
    (∀ d st', calcDepthAll g = Except.ok (d, st') →
      goodState g st' ∧ ∀ n ∈ keyList g, n ∈ st'.visited) := by
  have hone := oneSpec_all g hg (g.length + 1)
  have hfold := foldSpec_of_oneSpec g (g.length + 1) hone
  have hgoodinit : goodState g ⟨[], []⟩ := by
    constructor
    · intro n
      simp [lookupA]
    · intro n hn
      simp at hn
  have h := hfold [] List.nodup_nil (by intro t ht; cases ht)
    (by simp [keyList]) (g.map Prod.fst) ⟨[], []⟩ hgoodinit
    (by intro t ht; cases ht)
  constructor
  · intro e he
    exact h.1 e he
  · intro d st' hok
    obtain ⟨_, hgood, _, hnames⟩ := h.2 d st' hok
    refine ⟨hgood, ?_⟩
    intro n hn
    exact (hnames n hn ((lookupA_isSome_iff g n).mpr hn)).1

/-- If the depth computation succeeds, the graph is acyclic: recorded
depths strictly decrease along internal dependency edges. -/
theorem calcDepthAll_ok_acyclic (g : List (String × List String))
    (hg : lookupA g "" = none) (d : Nat) (st' : DState)
    (hok : calcDepthAll g = Except.ok (d, st')) : ¬ hasCycle g := by
  obtain ⟨hgood, hall⟩ := (calcDepthAll_spec g hg).2 d st' hok
  intro hcyc
  obtain ⟨a, ha⟩ := hcyc
  have hstep : ∀ x y, edgeRel g x y →
      (lookupA st'.depth y).getD 0 < (lookupA st'.depth x).getD 0 := by
    intro x y hxy
    obtain ⟨hxk, hyk, hmem⟩ := hxy
    have hxv : x ∈ st'.visited := hall x hxk
    obtain ⟨k, hk, hdeps⟩ := hgood.2 x hxv
    have hykey : (lookupA g y).isSome = true :=
      (lookupA_isSome_iff g y).mpr hyk
    obtain ⟨kd, hkd, hlt⟩ := hdeps y hmem hykey
    rw [hk, hkd]
    simpa using hlt
  have hdesc : ∀ x y, Relation.TransGen (edgeRel g) x y →
      (lookupA st'.depth y).getD 0 < (lookupA st'.depth x).getD 0 := by
    intro x y h
    induction h with
    | single h1 => exact hstep _ _ h1
    | tail _ e ih => exact lt_trans (hstep _ _ e) ih
  exact absurd (hdesc a a ha) (lt_irrefl _)

/-- C4: for every workspace whose internal dependency graph (as built by
`sortPackagesByDependencies`) contains a cycle, the depth pass — which runs
over **all** keys, not only those reachable from the first — throws the
`Circular dependency detected` error naming a package of the graph; the
`build` command therefore aborts before `buildAll` is ever invoked (zero
builds dispatched) and the process exits non-zero. The side condition
excludes the degenerate empty short name, which the source skips before
its cycle check. -/
theorem cycle_implies_circular_error_and_zero_builds
    (scope : String) (pkgs : List Pkg)
    (hempty : lookupA (sortGraph scope pkgs) "" = none)
    (hcyc : hasCycle (sortGraph scope pkgs)) :
    ∃ p, p ∈ keyList (sortGraph scope pkgs) ∧
      sortPackagesByDependencies scope pkgs =
        Except.error (circularMsg p) ∧
      buildStart scope pkgs = BuildStart.aborted (circularMsg p) := by
  cases hres : calcDepthAll (sortGraph scope pkgs) with
  | ok v =>
    obtain ⟨d, st'⟩ := v
    exact absurd hcyc (calcDepthAll_ok_acyclic _ hempty d st' hres)
  | error e =>
    obtain ⟨p, hp, he⟩ := (calcDepthAll_spec _ hempty).1 e hres
    subst he
    have hsort : sortPackagesByDependencies scope pkgs =
        Except.error (circularMsg p) := by
      simp only [sortPackagesByDependencies]
      rw [show calcDepthAll (buildSortGraph scope pkgs).2 =
        Except.error (circularMsg p) from hres]
    refine ⟨p, hp, hsort, ?_⟩
    unfold buildStart
    rw [hsort]

/-- Witness for C4 on the spec's scenario 2: `{a → c, b → a, c → b}`
(cycle artificially introduced) yields a fatal circular-dependency error
and an aborted build command. -/
theorem cycle_implies_circular_error_and_zero_builds_witness :
    ∃ p, p ∈ keyList (sortGraph "m"
        [⟨"@m/a", "1.0.0", [("@m/c", "^1.0.0")], [], []⟩,
         ⟨"@m/b", "1.0.0", [("@m/a", "^1.0.0")], [], []⟩,
         ⟨"@m/c", "1.0.0", [("@m/b", "^1.0.0")], [], []⟩]) ∧
      sortPackagesByDependencies "m"
        [⟨"@m/a", "1.0.0", [("@m/c", "^1.0.0")], [], []⟩,
         ⟨"@m/b", "1.0.0", [("@m/a", "^1.0.0")], [], []⟩,
         ⟨"@m/c", "1.0.0", [("@m/b", "^1.0.0")], [], []⟩] =
        Except.error (circularMsg p) ∧
      buildStart "m"
        [⟨"@m/a", "1.0.0", [("@m/c", "^1.0.0")], [], []⟩,
         ⟨"@m/b", "1.0.0", [("@m/a", "^1.0.0")], [], []⟩,
         ⟨"@m/c", "1.0.0", [("@m/b", "^1.0.0")], [], []⟩] =
        BuildStart.aborted (circularMsg p) := by
  apply cycle_implies_circular_error_and_zero_builds "m"
    [⟨"@m/a", "1.0.0", [("@m/c", "^1.0.0")], [], []⟩,
     ⟨"@m/b", "1.0.0", [("@m/a", "^1.0.0")], [], []⟩,
     ⟨"@m/c", "1.0.0", [("@m/b", "^1.0.0")], [], []⟩]
    (by decide)
  refine ⟨"a", ?_⟩
  have e1 : edgeRel (sortGraph "m"
      [⟨"@m/a", "1.0.0", [("@m/c", "^1.0.0")], [], []⟩,
       ⟨"@m/b", "1.0.0", [("@m/a", "^1.0.0")], [], []⟩,
       ⟨"@m/c", "1.0.0", [("@m/b", "^1.0.0")], [], []⟩]) "a" "c" :=
    ⟨by decide, by decide, by decide⟩
  have e2 : edgeRel (sortGraph "m"
      [⟨"@m/a", "1.0.0", [("@m/c", "^1.0.0")], [], []⟩,
       ⟨"@m/b", "1.0.0", [("@m/a", "^1.0.0")], [], []⟩,
       ⟨"@m/c", "1.0.0", [("@m/b", "^1.0.0")], [], []⟩]) "c" "b" :=
    ⟨by decide, by decide, by decide⟩
  have e3 : edgeRel (sortGraph "m"
      [⟨"@m/a", "1.0.0", [("@m/c", "^1.0.0")], [], []⟩,
       ⟨"@m/b", "1.0.0", [("@m/a", "^1.0.0")], [], []⟩,
       ⟨"@m/c", "1.0.0", [("@m/b", "^1.0.0")], [], []⟩]) "b" "a" :=
    ⟨by decide, by decide, by decide⟩
  exact Relation.TransGen.head e1
    (Relation.TransGen.head e2 (Relation.TransGen.single e3))

end Monoup
